import Mathlib

/-!
# docker-lint: a verified shallow embedding of the analysis pipeline

This file embeds, in Lean 4, the core of the `docker-lint` Dockerfile
analyzer: the AST data model (`internal/ast`), the rule catalogue
(`internal/rules`), the rule registry, the analyzer (`internal/analyzer`),
the inline-ignore directive extraction of the parser
(`Parser.parseInlineIgnore`), and the logical-line folding of the lexer
(`Lexer.readNextLine` / `Lexer.scanToken`).

Each definition is translated directly from the corresponding Go function,
keeping the source's names where Lean allows.  Go strings are modelled as
Lean `String` / `List Char`; Go `int` as `Int`; nilable pointers as
`Option`; Go maps used by the code as association lists with the same
lookup/append behaviour.  The few regular expressions the rules use are
simple (literals, `\s+`, small alternations, optional characters); each is
embedded as an executable matcher whose equivalence with the RE2 pattern
is noted at its definition.  Go's `ToLower`/`ToUpper`/`TrimSpace` and the
case-insensitive regex flag are modelled on ASCII, which covers every
string the rules and directives compare against.

Theorems about the claims of the specification follow the definitions.
-/

namespace DockerLint

/-! ## Go string primitives -/

/-- Embedding of `litAt lit s` is true iff the character list `lit` is an initial
segment of `s` (Go `strings.HasPrefix`, with the arguments swapped). -/
def litAt : List Char → List Char → Bool
  | [], _ => true
  | _ :: _, [] => false
  | c :: cs, d :: ds => c == d && litAt cs ds

/-- Embedding of `containsSeq s sub` is true iff `sub` occurs contiguously somewhere in
`s` (Go `strings.Contains`). -/
def containsSeq : List Char → List Char → Bool
  | [], sub => litAt sub []
  | c :: rest, sub => litAt sub (c :: rest) || containsSeq rest sub

/-- Go `strings.Contains` on `String`. -/
def strContains (s sub : String) : Bool := containsSeq s.data sub.data

/-- Go `strings.HasPrefix` on `String`. -/
def strStartsWith (s p : String) : Bool := litAt p.data s.data

/-- Go `strings.HasSuffix` on `String`. -/
def strEndsWith (s p : String) : Bool := litAt p.data.reverse s.data.reverse

/-- ASCII lower-casing of one character (Go `strings.ToLower`;
the inputs compared by the rules are ASCII). -/
def asciiLower (c : Char) : Char :=
  if 'A' ≤ c && c ≤ 'Z' then Char.ofNat (c.toNat + 32) else c

/-- ASCII upper-casing of one character (Go `strings.ToUpper`). -/
def asciiUpper (c : Char) : Char :=
  if 'a' ≤ c && c ≤ 'z' then Char.ofNat (c.toNat - 32) else c

/-- Go `strings.ToLower` on `String` (ASCII). -/
def strToLower (s : String) : String := String.mk (s.data.map asciiLower)

/-- Go `strings.ToUpper` on `String` (ASCII). -/
def strToUpper (s : String) : String := String.mk (s.data.map asciiUpper)

/-- The characters treated as white space by Go `unicode.IsSpace`
(ASCII part), used by `strings.TrimSpace`. -/
def isGoSpace (c : Char) : Bool :=
  c == ' ' || c == '\t' || c == '\n' || c == '\x0b' || c == '\x0c' || c == '\r'

/-- Go `strings.TrimSpace` on a character list. -/
def trimSpaceList (l : List Char) : List Char :=
  ((l.dropWhile isGoSpace).reverse.dropWhile isGoSpace).reverse

/-- Go `strings.TrimSpace` on `String`. -/
def strTrimSpace (s : String) : String := String.mk (trimSpaceList s.data)

/-- Go `strings.Split` on a single separating character: cuts at every
occurrence, keeping empty pieces, and never returns an empty list. -/
def splitOnChar (sep : Char) : List Char → List (List Char)
  | [] => [[]]
  | c :: cs =>
    let r := splitOnChar sep cs
    if c == sep then [] :: r
    else
      match r with
      | [] => [[c]]
      | g :: gs => (c :: g) :: gs

/-! ## Regular-expression matchers

Go's `regexp` (RE2) is used by the rules only with patterns built from
literals, the class `\s` (= `[\t\n\f\r ]`), `+`/`*` on `\s`, two- or
three-way alternations of literals, one optional character (`[3]?`,
`f?`, `[_-]?`, `s?`), the anchored `^https?://`, and `[^\n]*` before a
literal.  Each pattern is embedded as a decidable matcher below.  After a
`\s+`/`\s*` every continuation in these patterns starts with a character
that is not white space, so a maximal-munch scan is equivalent to RE2's
search; `MatchString` only asks for existence, so scanning every suffix
is equivalent to RE2's leftmost search. -/

/-- Characters of the RE2 class `\s` = `[\t\n\f\r ]`. -/
def isRegexWS (c : Char) : Bool :=
  c == ' ' || c == '\t' || c == '\n' || c == '\x0c' || c == '\r'

/-- Consume an exact literal, returning the rest. -/
def dropLit : List Char → List Char → Option (List Char)
  | [], s => some s
  | _ :: _, [] => none
  | c :: cs, d :: ds => if c == d then dropLit cs ds else none

/-- Consume `\s+` (one or more white-space characters, maximal munch). -/
def dropWS1 : List Char → Option (List Char)
  | [] => none
  | c :: cs => if isRegexWS c then some (cs.dropWhile isRegexWS) else none

/-- Embedding of `anySuffix p s` is true iff `p` holds of some suffix of `s`
(the unanchored search of `MatchString`). -/
def anySuffix (p : List Char → Bool) : List Char → Bool
  | [] => p []
  | c :: cs => p (c :: cs) || anySuffix p cs

/-- Consume a literal followed by `\s+`. -/
def litThenWS (lit : List Char) (s : List Char) : Option (List Char) :=
  match dropLit lit s with
  | some r => dropWS1 r
  | none => none

/-- Matcher for `a\s+(b₁|b₂|…)` anywhere in the string. -/
def hasSeq2 (a : String) (alts : List String) (s : List Char) : Bool :=
  anySuffix (fun t =>
    match litThenWS a.data t with
    | some r => alts.any (fun b => litAt b.data r)
    | none => false) s

/-- Matcher for `a\s+b\s+c` anywhere in the string. -/
def hasSeq3 (a b c : String) (s : List Char) : Bool :=
  anySuffix (fun t =>
    match litThenWS a.data t with
    | some r =>
      match litThenWS b.data r with
      | some r2 => litAt c.data r2
      | none => false
    | none => false) s

/-- Matcher for `[^\n]*lit` at the current position: `lit` occurs with no
newline before it. -/
def noNLThenLit (lit : List Char) : List Char → Bool
  | [] => litAt lit []
  | c :: cs => litAt lit (c :: cs) || (c != '\n' && noNLThenLit lit cs)

/-- Matcher for `rm\s+-rf?\s+dir` anywhere in the string (both branches of
the optional `f` are tried, as RE2 would). -/
def hasRmSeq (dir : String) (s : List Char) : Bool :=
  anySuffix (fun t =>
    match litThenWS "rm".data t with
    | some r =>
      match dropLit "-r".data r with
      | some r2 =>
        let withF :=
          match dropLit "f".data r2 with
          | some r3 =>
            match dropWS1 r3 with
            | some r4 => litAt dir.data r4
            | none => false
          | none => false
        let noF :=
          match dropWS1 r2 with
          | some r4 => litAt dir.data r4
          | none => false
        withF || noF
      | none => false
    | none => false) s

/-- Matcher for `p\s+install\s+[^\n]*suffixLit` anywhere in the string. -/
def hasInstallNoNL (p : String) (suffixLit : String) (s : List Char) : Bool :=
  anySuffix (fun t =>
    match litThenWS p.data t with
    | some r =>
      match litThenWS "install".data r with
      | some r2 => noNLThenLit suffixLit.data r2
      | none => false
    | none => false) s

/-- Embedding of `aptGetInstallPattern`: `apt-get\s+(install|upgrade)`. -/
def aptGetInstallPattern (s : String) : Bool :=
  hasSeq2 "apt-get" ["install", "upgrade"] s.data

/-- Embedding of `aptGetCleanPattern`: `(apt-get\s+clean|rm\s+-rf?\s+/var/lib/apt/lists)`. -/
def aptGetCleanPattern (s : String) : Bool :=
  hasSeq2 "apt-get" ["clean"] s.data || hasRmSeq "/var/lib/apt/lists" s.data

/-- Embedding of `yumInstallPattern`: `(yum|dnf)\s+install`. -/
def yumInstallPattern (s : String) : Bool :=
  hasSeq2 "yum" ["install"] s.data || hasSeq2 "dnf" ["install"] s.data

/-- Embedding of `yumCleanPattern`: `(yum|dnf)\s+clean\s+all`. -/
def yumCleanPattern (s : String) : Bool :=
  hasSeq3 "yum" "clean" "all" s.data || hasSeq3 "dnf" "clean" "all" s.data

/-- Embedding of `apkAddPattern`: `apk\s+(add|update)`. -/
def apkAddPattern (s : String) : Bool :=
  hasSeq2 "apk" ["add", "update"] s.data

/-- Embedding of `apkNoCachePattern`:
`(apk\s+add\s+[^\n]*--no-cache|rm\s+-rf?\s+/var/cache/apk)`. -/
def apkNoCachePattern (s : String) : Bool :=
  anySuffix (fun t =>
    match litThenWS "apk".data t with
    | some r =>
      match litThenWS "add".data r with
      | some r2 => noNLThenLit "--no-cache".data r2
      | none => false
    | none => false) s.data
  || hasRmSeq "/var/cache/apk" s.data

/-- Embedding of `pipInstallPattern`: `pip[3]?\s+install`. -/
def pipInstallPattern (s : String) : Bool :=
  hasSeq2 "pip" ["install"] s.data || hasSeq2 "pip3" ["install"] s.data

/-- Embedding of `pipNoCachePattern`: `pip[3]?\s+install\s+[^\n]*--no-cache-dir`. -/
def pipNoCachePattern (s : String) : Bool :=
  hasInstallNoNL "pip" "--no-cache-dir" s.data
  || hasInstallNoNL "pip3" "--no-cache-dir" s.data

/-- Embedding of `aptGetUpdatePattern`: `apt-get\s+update`. -/
def aptGetUpdatePattern (s : String) : Bool :=
  hasSeq2 "apt-get" ["update"] s.data

/-- Embedding of `yumUpdatePattern`: `(yum|dnf)\s+(update|upgrade)`. -/
def yumUpdatePattern (s : String) : Bool :=
  hasSeq2 "yum" ["update", "upgrade"] s.data
  || hasSeq2 "dnf" ["update", "upgrade"] s.data

/-- Embedding of `urlPattern`: `^https?://` (anchored; exactly the two prefixes). -/
def urlPattern (s : String) : Bool :=
  litAt "http://".data s.data || litAt "https://".data s.data

/-- The `secretPatterns` of `security.go`, expanded: every pattern is
`(?i)` of a literal with at most one optional `[_-]` or `s`, so a pattern
matches iff one of these lower-case literals occurs in the lower-cased
key.  (`api[_-]?key` expands to three literals, `credentials?` matches
iff `credential` occurs, and so on.) -/
def secretPatternLiterals : List String :=
  ["password", "passwd", "secret", "token",
   "apikey", "api_key", "api-key",
   "privatekey", "private_key", "private-key",
   "accesskey", "access_key", "access-key",
   "authtoken", "auth_token", "auth-token",
   "credential",
   "sshkey", "ssh_key", "ssh-key",
   "encryptionkey", "encryption_key", "encryption-key"]

/-- Embedding of `isSecretKey` of `security.go`: the key matches one of the
case-insensitive secret patterns. -/
def isSecretKey (key : String) : Bool :=
  secretPatternLiterals.any (fun p => containsSeq (key.data.map asciiLower) p.data)

/-! ## AST (`internal/ast`) -/

/-- Embedding of `ast.Severity`. -/
inductive Severity where
  | info
  | warning
  | error
deriving DecidableEq

/-- Embedding of `ast.Finding`. -/
structure Finding where
  ruleID : String
  severity : Severity
  line : Int
  column : Int
  message : String
  suggestion : String
deriving DecidableEq

/-- Embedding of `ast.FromInstruction` (also the referent of `Stage.FromInstr`). -/
structure FromData where
  lineNum : Int
  rawText : String
  image : String
  tag : String
  digest : String
  aliasName : String
  platform : String
deriving DecidableEq

/-- Embedding of `ast.Instruction`: the tagged sum of the seventeen instruction
structs.  Every constructor carries the struct's fields in source order. -/
inductive Instruction where
  | fromI : FromData → Instruction
  | runI (lineNum : Int) (rawText : String) (command : String) (shell : Bool)
  | copyI (lineNum : Int) (rawText : String) (sources : List String)
      (dest : String) (fromFlag : String) (chown : String)
  | addI (lineNum : Int) (rawText : String) (sources : List String)
      (dest : String) (chown : String)
  | envI (lineNum : Int) (rawText : String) (key : String) (value : String)
  | argI (lineNum : Int) (rawText : String) (name : String) (dflt : String)
  | exposeI (lineNum : Int) (rawText : String) (ports : List String)
  | workdirI (lineNum : Int) (rawText : String) (path : String)
  | userI (lineNum : Int) (rawText : String) (user : String) (group : String)
  | labelI (lineNum : Int) (rawText : String) (labels : List (String × String))
  | volumeI (lineNum : Int) (rawText : String) (paths : List String)
  | cmdI (lineNum : Int) (rawText : String) (command : List String) (shell : Bool)
  | entrypointI (lineNum : Int) (rawText : String) (command : List String) (shell : Bool)
  | healthcheckI (lineNum : Int) (rawText : String) (isNone : Bool)
      (interval : String) (timeout : String) (retries : String) (start : String)
      (command : List String)
  | shellI (lineNum : Int) (rawText : String) (shell : List String)
  | stopsignalI (lineNum : Int) (rawText : String) (signal : String)
  | onbuildI (lineNum : Int) (rawText : String) (inner : Instruction)
deriving DecidableEq

/-- The `Line()` method of every instruction struct. -/
def Instruction.lineOf : Instruction → Int
  | .fromI f => f.lineNum
  | .runI ln _ _ _ => ln
  | .copyI ln _ _ _ _ _ => ln
  | .addI ln _ _ _ _ => ln
  | .envI ln _ _ _ => ln
  | .argI ln _ _ _ => ln
  | .exposeI ln _ _ => ln
  | .workdirI ln _ _ => ln
  | .userI ln _ _ _ => ln
  | .labelI ln _ _ => ln
  | .volumeI ln _ _ => ln
  | .cmdI ln _ _ _ => ln
  | .entrypointI ln _ _ _ => ln
  | .healthcheckI ln _ _ _ _ _ _ _ => ln
  | .shellI ln _ _ => ln
  | .stopsignalI ln _ _ => ln
  | .onbuildI ln _ _ => ln

/-- Type test `instr.(*ast.RunInstruction)`. -/
def Instruction.isRun : Instruction → Bool
  | .runI _ _ _ _ => true
  | _ => false

/-- Type test `instr.(*ast.UserInstruction)`. -/
def Instruction.isUser : Instruction → Bool
  | .userI _ _ _ _ => true
  | _ => false

/-- Type test `instr.(*ast.CmdInstruction)`. -/
def Instruction.isCmd : Instruction → Bool
  | .cmdI _ _ _ _ => true
  | _ => false

/-- Type test `instr.(*ast.EntrypointInstruction)`. -/
def Instruction.isEntrypoint : Instruction → Bool
  | .entrypointI _ _ _ _ => true
  | _ => false

/-- Type test `instr.(*ast.HealthcheckInstruction)`. -/
def Instruction.isHealthcheck : Instruction → Bool
  | .healthcheckI _ _ _ _ _ _ _ _ => true
  | _ => false

/-- Type test for the look-ahead
`case *ast.CopyInstruction, *ast.AddInstruction`. -/
def Instruction.isCopyOrAdd : Instruction → Bool
  | .copyI _ _ _ _ _ _ => true
  | .addI _ _ _ _ _ => true
  | _ => false

/-- Embedding of `ast.Comment`. -/
structure Comment where
  lineNum : Int
  text : String
deriving DecidableEq

/-- Embedding of `ast.Stage`.  `FromInstr` is a nilable pointer in Go, hence an
`Option` here. -/
structure Stage where
  name : String
  fromInstr : Option FromData
  instructions : List Instruction
  index : Int
deriving DecidableEq

/-- Embedding of `ast.Dockerfile`.  The Go map `InlineIgnores : map[int][]string` is
modelled as an association list with unique keys; `lookupIgnores` below
gives the map lookup. -/
structure Dockerfile where
  stages : List Stage
  instructions : List Instruction
  comments : List Comment
  inlineIgnores : List (Int × List String)
deriving DecidableEq

/-- Map lookup `dockerfile.InlineIgnores[line]` (first matching key). -/
def lookupIgnores : List (Int × List String) → Int → Option (List String)
  | [], _ => none
  | (k, v) :: rest, l => if k == l then some v else lookupIgnores rest l

/-- Embedding of `intToString` of `layer.go`: digit loop `digits = ('0'+n%10) + digits`.
The loop is expressed with the argument itself as (sufficient) fuel so
that the definition is structurally recursive. -/
def digitsLoop : Nat → Nat → String
  | 0, _ => ""
  | fuel + 1, n =>
    if n == 0 then ""
    else digitsLoop fuel (n / 10) ++ String.mk [Char.ofNat (48 + n % 10)]

/-- Embedding of `intToString` of `layer.go`. -/
def intToString (n : Int) : String :=
  if n == 0 then "0"
  else if n < 0 then "-" ++ digitsLoop (-n).toNat (-n).toNat
  else digitsLoop n.toNat n.toNat

/-! ## Base-image rules (`base_image.go`): DL3006, DL3007, DL3008 -/

/-- Embedding of `MissingTagRule.Check` (DL3006): a FROM whose image is not `scratch`
(case-insensitively), has no digest and an empty tag. -/
def MissingTagRule.check (df : Dockerfile) : List Finding :=
  df.instructions.filterMap fun i =>
    match i with
    | .fromI f =>
      if strToLower f.image == "scratch" then none
      else if f.digest != "" then none
      else if f.tag == "" then
        some { ruleID := "DL3006", severity := .warning, line := f.lineNum, column := 1,
               message := "Image '" ++ f.image ++ "' does not have an explicit tag, defaulting to 'latest'",
               suggestion := "Use explicit tag like '" ++ f.image ++ ":<version>' for reproducible builds" }
      else none
    | _ => none

/-- Embedding of `LatestTagRule.Check` (DL3007). -/
def LatestTagRule.check (df : Dockerfile) : List Finding :=
  df.instructions.filterMap fun i =>
    match i with
    | .fromI f =>
      if strToLower f.image == "scratch" then none
      else if f.digest != "" then none
      else if strToLower f.tag == "latest" then
        some { ruleID := "DL3007", severity := .warning, line := f.lineNum, column := 1,
               message := "Using 'latest' tag for image '" ++ f.image ++ "' is not recommended",
               suggestion := "Pin to a specific version like '" ++ f.image ++ ":<version>' for reproducible builds" }
      else none
    | _ => none

/-- The `largeBaseImages` map of `base_image.go` (an association list;
the code only looks it up by key). -/
def largeBaseImages : List (String × String) :=
  [("ubuntu", "ubuntu:*-slim or alpine"),
   ("debian", "debian:*-slim or alpine"),
   ("centos", "alpine or distroless"),
   ("fedora", "alpine or distroless"),
   ("amazonlinux", "alpine or distroless"),
   ("oraclelinux", "alpine or distroless"),
   ("python", "python:*-slim or python:*-alpine"),
   ("node", "node:*-slim or node:*-alpine"),
   ("ruby", "ruby:*-slim or ruby:*-alpine"),
   ("golang", "golang:*-alpine or distroless"),
   ("openjdk", "openjdk:*-slim or eclipse-temurin:*-alpine"),
   ("java", "eclipse-temurin:*-alpine or distroless"),
   ("php", "php:*-alpine"),
   ("perl", "perl:*-slim"),
   ("rust", "rust:*-slim or rust:*-alpine")]

/-- Map lookup over an association list with distinct keys. -/
def lookupAssoc : List (String × String) → String → Option String
  | [], _ => none
  | (k, v) :: rest, key => if k == key then some v else lookupAssoc rest key

/-- Embedding of `extractBaseImageName`: last `/`-separated component, lower-cased. -/
def extractBaseImageName (image : String) : String :=
  strToLower (String.mk ((splitOnChar '/' image.data).getLastD []))

/-- Embedding of `isSlimVariant`. -/
def isSlimVariant (tag : String) : Bool :=
  if tag == "" then false
  else
    let t := strToLower tag
    ["slim", "alpine", "minimal", "distroless", "scratch", "tiny", "micro"].any
      (fun ind => strContains t ind)

/-- Embedding of `LargeBaseImageRule.Check` (DL3008). -/
def LargeBaseImageRule.check (df : Dockerfile) : List Finding :=
  df.instructions.filterMap fun i =>
    match i with
    | .fromI f =>
      match lookupAssoc largeBaseImages (extractBaseImageName f.image) with
      | none => none
      | some alternative =>
        if isSlimVariant (strToLower f.tag) then none
        else
          some { ruleID := "DL3008", severity := .warning, line := f.lineNum, column := 1,
                 message := "Image '" ++ f.image ++ "' is a large base image",
                 suggestion := "Consider using " ++ alternative ++ " for smaller image size" }
    | _ => none

/-! ## Layer rules (`layer.go`): DL3009, DL3010, DL3011, DL3012 -/

/-- Embedding of `CacheNotCleanedRule.Check` (DL3009): the `if … continue` chain emits
at most one finding per RUN, apt before yum before apk before pip. -/
def CacheNotCleanedRule.check (df : Dockerfile) : List Finding :=
  df.instructions.filterMap fun i =>
    match i with
    | .runI ln _ cmd _ =>
      if aptGetInstallPattern cmd && !aptGetCleanPattern cmd then
        some { ruleID := "DL3009", severity := .warning, line := ln, column := 1,
               message := "apt-get install without cache cleanup increases image size",
               suggestion := "Add 'apt-get clean && rm -rf /var/lib/apt/lists/*' in the same RUN instruction" }
      else if yumInstallPattern cmd && !yumCleanPattern cmd then
        some { ruleID := "DL3009", severity := .warning, line := ln, column := 1,
               message := "yum/dnf install without cache cleanup increases image size",
               suggestion := "Add 'yum clean all' or 'dnf clean all' in the same RUN instruction" }
      else if apkAddPattern cmd && !apkNoCachePattern cmd then
        some { ruleID := "DL3009", severity := .warning, line := ln, column := 1,
               message := "apk add without --no-cache increases image size",
               suggestion := "Use 'apk add --no-cache' or add 'rm -rf /var/cache/apk/*'" }
      else if pipInstallPattern cmd && !pipNoCachePattern cmd then
        some { ruleID := "DL3009", severity := .warning, line := ln, column := 1,
               message := "pip install without --no-cache-dir increases image size",
               suggestion := "Use 'pip install --no-cache-dir' to avoid caching packages" }
      else none
    | _ => none

/-- Embedding of `formatConsecutiveRunMessage` of `layer.go`. -/
def formatConsecutiveRunMessage (count : Int) : String :=
  "Found " ++ intToString count ++ " consecutive RUN instructions that could be combined"

/-- The finding emitted by `ConsecutiveRunRule` for a tracked sequence
`consecutiveRuns` (line of its first element, message naming its length). -/
def ConsecutiveRunRule.flush (acc : List Instruction) : List Finding :=
  if 2 ≤ acc.length then
    [{ ruleID := "DL3010", severity := .warning,
       line := ((acc.head?.map Instruction.lineOf).getD 0), column := 1,
       message := formatConsecutiveRunMessage (acc.length : Int),
       suggestion := "Combine RUN instructions using '&&' to reduce layers" }]
  else []

/-- The loop of `ConsecutiveRunRule.Check`: accumulate consecutive RUNs;
a non-RUN (or the end of the list) flushes the accumulator. -/
def ConsecutiveRunRule.go (acc : List Instruction) : List Instruction → List Finding
  | [] => ConsecutiveRunRule.flush acc
  | i :: rest =>
    if i.isRun then ConsecutiveRunRule.go (acc ++ [i]) rest
    else ConsecutiveRunRule.flush acc ++ ConsecutiveRunRule.go [] rest

/-- Embedding of `ConsecutiveRunRule.Check` (DL3010). -/
def ConsecutiveRunRule.check (df : Dockerfile) : List Finding :=
  ConsecutiveRunRule.go [] df.instructions

/-- Embedding of `isPackageInstallCommand` of `layer.go`. -/
def isPackageInstallCommand (cmd : String) : Bool :=
  aptGetInstallPattern cmd || yumInstallPattern cmd || apkAddPattern cmd
  || pipInstallPattern cmd
  || strContains cmd "npm install" || strContains cmd "yarn install"
  || strContains cmd "go mod download"

/-- Embedding of `isPackageFile` of `layer.go`.  The destination is lower-cased before
the comparisons, so entries with capitals (`Gemfile`, `Cargo.toml`, …)
never match; the embedding reproduces that faithfully. -/
def isPackageFile (dest : String) : Bool :=
  let d := strToLower dest
  ["requirements.txt", "package.json", "package-lock.json", "yarn.lock",
   "go.mod", "go.sum", "Gemfile", "Gemfile.lock", "Cargo.toml", "Cargo.lock",
   "pom.xml", "build.gradle", "composer.json", "composer.lock"].any
    (fun pf => strEndsWith d pf || strContains d pf)

/-- The `copyInfo` records tracked by `SuboptimalOrderingRule.checkStage`. -/
structure CopyInfo where
  instr : Instruction
  dest : String
deriving DecidableEq

/-- The loop of `SuboptimalOrderingRule.checkStage` (DL3011): walk the
stage's instructions keeping the `COPY`/`ADD` seen so far (a
`COPY --from` is skipped); at a package-install RUN with earlier copies
and at least one later `COPY`/`ADD`, report every earlier copy whose
destination is not a package file.  The source never clears `copies`
after reporting, and the embedding keeps that behaviour. -/
def SuboptimalOrderingRule.goStage (copies : List CopyInfo) :
    List Instruction → List Finding
  | [] => []
  | i :: rest =>
    match i with
    | .copyI _ _ _ dest fromFlag _ =>
      if fromFlag != "" then SuboptimalOrderingRule.goStage copies rest
      else SuboptimalOrderingRule.goStage (copies ++ [⟨i, dest⟩]) rest
    | .addI _ _ _ dest _ =>
      SuboptimalOrderingRule.goStage (copies ++ [⟨i, dest⟩]) rest
    | .runI _ _ cmd _ =>
      if isPackageInstallCommand cmd && 0 < copies.length then
        if rest.any Instruction.isCopyOrAdd then
          (copies.filterMap fun cp =>
            if isPackageFile cp.dest then none
            else
              some { ruleID := "DL3011", severity := .warning,
                     line := cp.instr.lineOf, column := 1,
                     message := "COPY/ADD before package installation may reduce cache efficiency",
                     suggestion := "Move COPY/ADD after RUN instructions that don't depend on copied files" })
          ++ SuboptimalOrderingRule.goStage copies rest
        else SuboptimalOrderingRule.goStage copies rest
      else SuboptimalOrderingRule.goStage copies rest
    | _ => SuboptimalOrderingRule.goStage copies rest

/-- Embedding of `SuboptimalOrderingRule.Check` (DL3011): stages in order. -/
def SuboptimalOrderingRule.check (df : Dockerfile) : List Finding :=
  (df.stages.map fun st => SuboptimalOrderingRule.goStage [] st.instructions).flatten

/-- Embedding of `UpdateWithoutInstallRule.Check` (DL3012): `apt-get update` without
`apt-get (install|upgrade)`; or `(yum|dnf) (update|upgrade)` without
`(yum|dnf) install` when the command also contains `makecache`. -/
def UpdateWithoutInstallRule.check (df : Dockerfile) : List Finding :=
  df.instructions.filterMap fun i =>
    match i with
    | .runI ln _ cmd _ =>
      if aptGetUpdatePattern cmd && !aptGetInstallPattern cmd then
        some { ruleID := "DL3012", severity := .warning, line := ln, column := 1,
               message := "apt-get update without install in same RUN instruction",
               suggestion := "Combine 'apt-get update' with 'apt-get install' in the same RUN instruction" }
      else if yumUpdatePattern cmd && !yumInstallPattern cmd
              && strContains cmd "makecache" then
        some { ruleID := "DL3012", severity := .warning, line := ln, column := 1,
               message := "yum/dnf makecache without install in same RUN instruction",
               suggestion := "Combine cache refresh with install in the same RUN instruction" }
      else none
    | _ => none

/-! ## Best-practice rules (`bestpractice.go`): DL3001, DL3002, DL3003,
DL5000, DL5001 -/

/-- The per-stage body of `MultipleCMDRule.Check`: with more than one CMD
in the stage, report every CMD except the last. -/
def MultipleCMDRule.stageFindings (stage : Stage) : List Finding :=
  let cmdInstrs := stage.instructions.filter Instruction.isCmd
  if 1 < cmdInstrs.length then
    cmdInstrs.dropLast.map fun c =>
      { ruleID := "DL3001", severity := .warning, line := c.lineOf, column := 1,
        message := "Multiple CMD instructions found; only the last one will take effect",
        suggestion := "Remove duplicate CMD instructions and keep only the final one" }
  else []

/-- Embedding of `MultipleCMDRule.Check` (DL3001): per stage, all CMDs but the last. -/
def MultipleCMDRule.check (df : Dockerfile) : List Finding :=
  (df.stages.map MultipleCMDRule.stageFindings).flatten

/-- The per-stage body of `MultipleEntrypointRule.Check`. -/
def MultipleEntrypointRule.stageFindings (stage : Stage) : List Finding :=
  let epInstrs := stage.instructions.filter Instruction.isEntrypoint
  if 1 < epInstrs.length then
    epInstrs.dropLast.map fun c =>
      { ruleID := "DL3002", severity := .warning, line := c.lineOf, column := 1,
        message := "Multiple ENTRYPOINT instructions found; only the last one will take effect",
        suggestion := "Remove duplicate ENTRYPOINT instructions and keep only the final one" }
  else []

/-- Embedding of `MultipleEntrypointRule.Check` (DL3002). -/
def MultipleEntrypointRule.check (df : Dockerfile) : List Finding :=
  (df.stages.map MultipleEntrypointRule.stageFindings).flatten

/-- Embedding of `isAbsolutePath` of `bestpractice.go`: empty is not absolute; `/…`,
any path whose second byte is `:`, and `$…` are absolute. -/
def isAbsolutePath (path : String) : Bool :=
  if path == "" then false
  else if strStartsWith path "/" then true
  else if 2 ≤ path.data.length && path.data.get? 1 == some ':' then true
  else if strStartsWith path "$" then true
  else false

/-- Embedding of `RelativeWorkdirRule.Check` (DL3003). -/
def RelativeWorkdirRule.check (df : Dockerfile) : List Finding :=
  df.instructions.filterMap fun i =>
    match i with
    | .workdirI ln _ path =>
      if !isAbsolutePath path then
        some { ruleID := "DL3003", severity := .warning, line := ln, column := 1,
               message := "WORKDIR uses relative path '" ++ path ++ "'",
               suggestion := "Use an absolute path like '/" ++ path ++ "' for clarity" }
      else none
    | _ => none

/-- Embedding of `MissingHealthcheckRule.Check` (DL5000): if no HEALTHCHECK node occurs
in the flat instruction list and there is at least one stage, one finding
on the last stage: `line := 1`, overridden by the FROM line when the
stage has a FROM, overridden by the last instruction's line when the
stage has instructions. -/
def MissingHealthcheckRule.check (df : Dockerfile) : List Finding :=
  let hasHealthcheck := df.instructions.any Instruction.isHealthcheck
  if hasHealthcheck then []
  else
    match df.stages.getLast? with
    | none => []
    | some lastStage =>
      let line1 : Int :=
        match lastStage.fromInstr with
        | some f => f.lineNum
        | none => 1
      let line : Int :=
        match lastStage.instructions.getLast? with
        | some i => i.lineOf
        | none => line1
      [{ ruleID := "DL5000", severity := .warning, line := line, column := 1,
         message := "No HEALTHCHECK instruction found",
         suggestion := "Add 'HEALTHCHECK CMD <command>' to enable container health monitoring" }]

/-- Go `filepath.Base` (Unix separator). -/
def filepathBase (s : String) : String :=
  if s == "" then "."
  else
    let stripped := (s.data.reverse.dropWhile (· == '/')).reverse
    if stripped.isEmpty then "/"
    else String.mk ((stripped.reverse.takeWhile (· != '/')).reverse)

/-- Embedding of `hasWildcard` of `bestpractice.go`: some source's basename contains
`*`, `?` or `[`. -/
def hasWildcard (sources : List String) : Bool :=
  sources.any fun source =>
    ["*", "?", "["].any fun wc => strContains (filepathBase source) wc

/-- Embedding of `WildcardCopyRule.Check` (DL5001, severity Info). -/
def WildcardCopyRule.check (df : Dockerfile) : List Finding :=
  df.instructions.filterMap fun i =>
    match i with
    | .copyI ln _ sources _ fromFlag _ =>
      if fromFlag != "" then none
      else if hasWildcard sources then
        some { ruleID := "DL5001", severity := .info, line := ln, column := 1,
               message := "COPY uses wildcard pattern which may include unnecessary files",
               suggestion := "Consider using explicit file paths or a .dockerignore file to exclude unnecessary files" }
      else none
    | .addI ln _ sources _ _ =>
      if hasWildcard sources then
        some { ruleID := "DL5001", severity := .info, line := ln, column := 1,
               message := "ADD uses wildcard pattern which may include unnecessary files",
               suggestion := "Consider using explicit file paths or a .dockerignore file to exclude unnecessary files" }
      else none
    | _ => none

/-! ## Security rules (`security.go`): DL4000 … DL4004 -/

/-- Embedding of `SecretInEnvRule.Check` (DL4000): the message names the key and is
otherwise fixed text; the value is not read. -/
def SecretInEnvRule.check (df : Dockerfile) : List Finding :=
  df.instructions.filterMap fun i =>
    match i with
    | .envI ln _ key _ =>
      if isSecretKey key then
        some { ruleID := "DL4000", severity := .warning, line := ln, column := 1,
               message := "ENV instruction contains key '" ++ key ++ "' which may contain a secret",
               suggestion := "Use Docker secrets, build-time secrets (--secret), or runtime environment variables instead" }
      else none
    | _ => none

/-- Embedding of `SecretInArgRule.Check` (DL4001). -/
def SecretInArgRule.check (df : Dockerfile) : List Finding :=
  df.instructions.filterMap fun i =>
    match i with
    | .argI ln _ name _ =>
      if isSecretKey name then
        some { ruleID := "DL4001", severity := .warning, line := ln, column := 1,
               message := "ARG instruction contains name '" ++ name ++ "' which may contain a secret",
               suggestion := "Use Docker secrets or build-time secrets (--secret) instead of ARG for sensitive values" }
      else none
    | _ => none

/-- The per-stage scan of `NoUserRule.Check`: `hasUser` is or-ed over the
stage's instruction list while `lastInstrLine` is overwritten by every
instruction's line (so it ends as the last line, `0` for an empty list). -/
def NoUserRule.stageScan (instrs : List Instruction) : Bool × Int :=
  instrs.foldl (fun p i => (p.1 || i.isUser, i.lineOf)) (false, 0)

/-- The finding `NoUserRule.Check` appends for one stage, if any. -/
def NoUserRule.stageFinding (stage : Stage) : Option Finding :=
  let scan := NoUserRule.stageScan stage.instructions
  if !scan.1 then
    match stage.fromInstr with
    | none => none
    | some f =>
      let line := if 0 < scan.2 then scan.2 else f.lineNum
      let stageName := if stage.name == "" then "stage " ++ intToString stage.index else stage.name
      some { ruleID := "DL4002", severity := .warning, line := line, column := 1,
             message := "No USER instruction in " ++ stageName ++ "; container will run as root",
             suggestion := "Add 'USER <username>' instruction to run container as non-root user" }
  else none

/-- Embedding of `NoUserRule.Check` (DL4002): one finding per stage without USER. -/
def NoUserRule.check (df : Dockerfile) : List Finding :=
  df.stages.filterMap NoUserRule.stageFinding

/-- Embedding of `AddWithURLRule.Check` (DL4003): at most one finding per ADD (the
inner loop breaks at the first URL source). -/
def AddWithURLRule.check (df : Dockerfile) : List Finding :=
  df.instructions.filterMap fun i =>
    match i with
    | .addI ln _ sources _ _ =>
      if sources.any urlPattern then
        some { ruleID := "DL4003", severity := .warning, line := ln, column := 1,
               message := "ADD with URL source is not recommended",
               suggestion := "Use 'RUN curl -o <dest> <url>' or 'RUN wget -O <dest> <url>' for better caching and security" }
      else none
    | _ => none

/-- Embedding of `isArchiveFile` of `security.go`. -/
def isArchiveFile (filename : String) : Bool :=
  let lower := strToLower filename
  [".tar", ".tar.gz", ".tgz", ".tar.bz2", ".tbz2", ".tar.xz", ".txz",
   ".zip", ".gz", ".bz2", ".xz"].any (fun ext => strEndsWith lower ext)

/-- The source-scanning loop of `AddOverCopyRule.Check`: it stops at the
first source that is a URL or an archive, recording which kind it was. -/
def AddOverCopyRule.scan : List String → Bool × Bool
  | [] => (false, false)
  | s :: rest =>
    if urlPattern s then (true, false)
    else if isArchiveFile s then (false, true)
    else AddOverCopyRule.scan rest

/-- Embedding of `AddOverCopyRule.Check` (DL4004): ADD with neither URL nor archive
sources. -/
def AddOverCopyRule.check (df : Dockerfile) : List Finding :=
  df.instructions.filterMap fun i =>
    match i with
    | .addI ln _ sources _ _ =>
      let scan := AddOverCopyRule.scan sources
      if !scan.1 && !scan.2 then
        some { ruleID := "DL4004", severity := .warning, line := ln, column := 1,
               message := "ADD used where COPY would suffice",
               suggestion := "Use COPY instead of ADD for simple file copying; ADD should only be used for URL fetching or archive extraction" }
      else none
    | _ => none

/-! ## Registry and analyzer (`registry.go`, `analyzer.go`) -/

/-- Embedding of `DefaultRegistry.All()`: the seventeen `init()`-registered rules,
sorted by identifier (`sort.Strings` over the map's keys). -/
def registryAll : List (String × (Dockerfile → List Finding)) :=
  [("DL3001", MultipleCMDRule.check),
   ("DL3002", MultipleEntrypointRule.check),
   ("DL3003", RelativeWorkdirRule.check),
   ("DL3006", MissingTagRule.check),
   ("DL3007", LatestTagRule.check),
   ("DL3008", LargeBaseImageRule.check),
   ("DL3009", CacheNotCleanedRule.check),
   ("DL3010", ConsecutiveRunRule.check),
   ("DL3011", SuboptimalOrderingRule.check),
   ("DL3012", UpdateWithoutInstallRule.check),
   ("DL4000", SecretInEnvRule.check),
   ("DL4001", SecretInArgRule.check),
   ("DL4002", NoUserRule.check),
   ("DL4003", AddWithURLRule.check),
   ("DL4004", AddOverCopyRule.check),
   ("DL5000", MissingHealthcheckRule.check),
   ("DL5001", WildcardCopyRule.check)]

/-- Embedding of `analyzer.Config`. -/
structure Config where
  ignoreRules : List String
deriving DecidableEq

/-- Embedding of `Analyzer.isIgnoredByInlineComment`: the finding's own line is looked
up in `InlineIgnores` and its rule id searched in the recorded list. -/
def Analyzer.isIgnoredByInlineComment (df : Dockerfile) (finding : Finding) : Bool :=
  match lookupIgnores df.inlineIgnores finding.line with
  | none => false
  | some ignoredRules => ignoredRules.any (fun ruleID => ruleID == finding.ruleID)

/-- Lexicographic order on character lists (by code point). -/
def charListLt : List Char → List Char → Bool
  | [], [] => false
  | [], _ :: _ => true
  | _ :: _, [] => false
  | c :: cs, d :: ds => c < d || (c == d && charListLt cs ds)

/-- Go's `<` on strings: lexicographic byte order (the strings compared
here — rule identifiers — are ASCII, where the byte order and the code
point order coincide). -/
def strLtGo (a b : String) : Bool := charListLt a.data b.data

/-- The comparison closure of the final `sort.Slice` in
`Analyzer.Analyze`: by line, then by rule id. -/
def findingLess (a b : Finding) : Bool :=
  if a.line != b.line then decide (a.line < b.line) else strLtGo a.ruleID b.ruleID

/-- Insert a finding into a list that is already sorted for
`findingLess`. -/
def insertFinding (f : Finding) : List Finding → List Finding
  | [] => [f]
  | g :: gs => if findingLess g f then g :: insertFinding f gs else f :: g :: gs

/-- The final sort of `Analyzer.Analyze`.  `sort.Slice` guarantees a
permutation of its input that is sorted for the comparison closure;
insertion sort realizes that contract deterministically. -/
def sortFindings (l : List Finding) : List Finding :=
  l.foldr insertFinding []

/-- Embedding of `Analyzer.Analyze`: nil guard, global-ignore set, rule loop in
registry order, inline-ignore filter, final sort.  The nilable
`*ast.Dockerfile` argument is an `Option`. -/
def Analyzer.analyze (cfg : Config) : Option Dockerfile → List Finding
  | none => []
  | some df =>
    let allFindings := registryAll.foldl
      (fun acc rule =>
        if cfg.ignoreRules.any (fun ruleID => ruleID == rule.1) then acc
        else acc ++ (rule.2 df).filter
          (fun finding => !Analyzer.isIgnoredByInlineComment df finding)) []
    sortFindings allFindings

/-! ## Inline-ignore directive extraction (`parser.go`)

`Parser.parseInlineIgnore` matches a comment against the RE2 pattern
`(?i)#\s*docker-lint\s+ignore:\s*(.+)` with `FindStringSubmatch`
(leftmost match).  The pattern is `#`, optional white space, the
case-insensitive literal `docker-lint`, mandatory white space, the
case-insensitive literal `ignore:`, optional white space and a greedy
non-empty newline-free capture.  After each `\s*`/`\s+` the continuation
starts with a non-space character (or is the capture), so maximal munch
is equivalent; a match whose capture would be pure white space yields no
rule ids after trimming and records nothing, exactly as a failed match
does, so the two embeddings below agree with the source on every input. -/

/-- Case-insensitive literal consumption (`lit` is given lower-case). -/
def dropLitCI : List Char → List Char → Option (List Char)
  | [], s => some s
  | _ :: _, [] => none
  | c :: cs, d :: ds => if c == asciiLower d then dropLitCI cs ds else none

/-- Try the inline-ignore pattern at the current position; on success
return the capture of `(.+)`. -/
def matchIgnoreAt : List Char → Option (List Char)
  | '#' :: r =>
    let r1 := r.dropWhile isRegexWS
    match dropLitCI "docker-lint".data r1 with
    | some r2 =>
      match dropWS1 r2 with
      | some r3 =>
        match dropLitCI "ignore:".data r3 with
        | some r4 =>
          let r5 := r4.dropWhile isRegexWS
          let cap := r5.takeWhile (fun c => c != '\n')
          if cap.isEmpty then none else some cap
        | none => none
      | none => none
    | none => none
  | _ => none

/-- The leftmost match of the inline-ignore pattern
(`FindStringSubmatch`), returning the capture. -/
def findIgnoreCapture : List Char → Option (List Char)
  | [] => none
  | c :: cs =>
    match matchIgnoreAt (c :: cs) with
    | some cap => some cap
    | none => findIgnoreCapture cs

/-- The rule ids extracted by `Parser.parseInlineIgnore` from one comment:
split the capture on `,`, trim each token, drop empties. -/
def directiveRuleIDs (comment : String) : List String :=
  match findIgnoreCapture comment.data with
  | none => []
  | some cap =>
    ((splitOnChar ',' cap).map (fun t => strTrimSpace (String.mk t))).filter
      (fun r => r != "")

/-- Go map update `m[k] = append(m[k], v...)` on the association list. -/
def mapAppend : List (Int × List String) → Int → List String → List (Int × List String)
  | [], k, v => [(k, v)]
  | (k', v') :: rest, k, v =>
    if k' == k then (k', v' ++ v) :: rest else (k', v') :: mapAppend rest k v

/-- Embedding of `Parser.parseInlineIgnore`: when the comment carries a directive with
at least one rule id, record the ids against `line + 1` — the source
line immediately after the comment. -/
def Parser.parseInlineIgnore (m : List (Int × List String)) (comment : String)
    (line : Int) : List (Int × List String) :=
  let ruleIDs := directiveRuleIDs comment
  if ruleIDs.isEmpty then m else mapAppend m (line + 1) ruleIDs

/-- The parser's top-level loop applies `parseInlineIgnore` to every
comment in order, starting from the empty map. -/
def buildInlineIgnores (comments : List Comment) : List (Int × List String) :=
  comments.foldl (fun m c => Parser.parseInlineIgnore m c.text c.lineNum) []

/-! ## Lexer (`lexer.go`): logical-line folding and token emission -/

/-- Embedding of `parser.TokenType`. -/
inductive TokenType where
  | instruction
  | argument
  | comment
  | newline
  | eof
  | error
deriving DecidableEq

/-- Embedding of `parser.Token`. -/
structure Token where
  type : TokenType
  value : String
  line : Int
  column : Int
deriving DecidableEq

/-- The mutable state of `parser.Lexer`: the unread reader bytes, the
line counter, the column, the current folded logical line, the position
in it, and the EOF flag. -/
structure LexState where
  input : List Char
  line : Int
  column : Int
  currentLine : List Char
  linePos : Nat
  atEOF : Bool
deriving DecidableEq

/-- Embedding of `validInstructions` of `lexer.go` (`MAINTAINER` included). -/
def validInstructions : List String :=
  ["FROM", "RUN", "COPY", "ADD", "ENV", "ARG", "EXPOSE", "WORKDIR",
   "USER", "LABEL", "VOLUME", "CMD", "ENTRYPOINT", "HEALTHCHECK",
   "SHELL", "STOPSIGNAL", "ONBUILD", "MAINTAINER"]

/-- Embedding of `IsValidInstruction`: membership of the upper-cased word. -/
def IsValidInstruction (s : String) : Bool :=
  validInstructions.any (fun v => v == strToUpper s)

/-- Go `strings.TrimRight(line, "\r\n")`. -/
def trimRightCRLF (l : List Char) : List Char :=
  (l.reverse.dropWhile (fun c => c == '\r' || c == '\n')).reverse

/-- The loop of `Lexer.readNextLine`, with fuel (one unit per physical
line) to keep the recursion structural.  `bufio.ReadString('\n')` yields
the chunk up to and including the first newline, or the whole rest with
`io.EOF` when no newline remains.  Returns the folded logical line, the
remaining input, the number of times the loop incremented `l.line`
(one per physical chunk consumed, counting the initial `firstLine`
increment), and the new `atEOF` flag. -/
def foldLogicalF : Nat → List Char → List Char × List Char × Nat × Bool
  | 0, input =>
    -- unreachable when the fuel is at least the number of physical lines
    (trimRightCRLF input, [], 1, true)
  | fuel + 1, input =>
    let pre := input.takeWhile (fun c => c != '\n')
    match input.dropWhile (fun c => c != '\n') with
    | _ :: r =>
      let line := trimRightCRLF (pre ++ ['\n'])
      if line.getLast? == some '\\' then
        let rec2 := foldLogicalF fuel r
        (line.dropLast ++ [' '] ++ rec2.1, rec2.2.1, rec2.2.2.1 + 1, rec2.2.2.2)
      else (line, r, 1, false)
    | [] =>
      let line := trimRightCRLF input
      if line.getLast? == some '\\' then (line.dropLast ++ [' '], [], 1, true)
      else (line, [], 1, true)

/-- Embedding of `Lexer.readNextLine` on the lexer state: fold the next logical line,
advance the line counter by the number of physical lines consumed, reset
`linePos` and `column`, and report whether scanning may continue
(`len(currentLine) > 0 || !atEOF`). -/
def readNextLineGo (st : LexState) : LexState × Bool :=
  let r := foldLogicalF (st.input.length + 1) st.input
  let st' : LexState :=
    { input := r.2.1, line := st.line + (r.2.2.1 : Int), column := 0,
      currentLine := r.1, linePos := 0, atEOF := st.atEOF || r.2.2.2 }
  (st', !r.1.isEmpty || !st'.atEOF)

/-- Embedding of `Lexer.skipWhitespace`: advance `linePos` past spaces and tabs. -/
def skipWhitespaceGo (st : LexState) : LexState :=
  let rest := st.currentLine.drop st.linePos
  { st with linePos := st.linePos + (rest.takeWhile (fun c => c == ' ' || c == '\t')).length }

/-- Embedding of `Lexer.isAtLineStart`: everything before `linePos` is white space. -/
def isAtLineStartGo (st : LexState) : Bool :=
  (st.currentLine.take st.linePos).all (fun c => c == ' ' || c == '\t')

/-- Go `unicode.IsLetter/IsDigit` plus `_` (ASCII, as used here). -/
def isWordChar (c : Char) : Bool := c.isAlpha || c.isDigit || c == '_'

/-- The loop of `Lexer.scanArgument` from the current position: returns
the produced characters and the number of input characters consumed
(the loop stops at an unquoted `#` without consuming it). -/
def scanArgLoop : List Char → Bool → Bool → List Char × Nat
  | [], _, _ => ([], 0)
  | [c], inD, inS =>
    -- a final backslash is not an escape (there is no next byte)
    if c == '"' && !inS then (['"'], 1)
    else if c == '\'' && !inD then (['\''], 1)
    else if c == '#' && !inD && !inS then ([], 0)
    else ([c], 1)
  | c :: n :: cs, inD, inS =>
    if c == '\\' && !inS then
      if n == 'n' then
        let r := scanArgLoop cs inD inS
        ('\n' :: r.1, r.2 + 2)
      else if n == 't' then
        let r := scanArgLoop cs inD inS
        ('\t' :: r.1, r.2 + 2)
      else if n == '"' || n == '\'' || n == '\\' || n == ' ' then
        let r := scanArgLoop cs inD inS
        (n :: r.1, r.2 + 2)
      else
        let r := scanArgLoop (n :: cs) inD inS
        ('\\' :: r.1, r.2 + 1)
    else if c == '"' && !inS then
      let r := scanArgLoop (n :: cs) (!inD) inS
      ('"' :: r.1, r.2 + 1)
    else if c == '\'' && !inD then
      let r := scanArgLoop (n :: cs) inD (!inS)
      ('\'' :: r.1, r.2 + 1)
    else if c == '#' && !inD && !inS then ([], 0)
    else
      let r := scanArgLoop (n :: cs) inD inS
      (c :: r.1, r.2 + 1)

/-- Embedding of `Lexer.scanArgument`: skip white space, run the loop, trim the
result.  Returns the argument string and the new `linePos`. -/
def scanArgumentGo (st : LexState) : String × Nat :=
  let st := skipWhitespaceGo st
  if st.currentLine.length ≤ st.linePos then ("", st.linePos)
  else
    let r := scanArgLoop (st.currentLine.drop st.linePos) false false
    (strTrimSpace (String.mk r.1), st.linePos + r.2)

/-- The part of `Lexer.scanToken` that runs once a current line is
available: skip white space, emit `Newline` at end of line, `Comment`
after `#`, an `Instruction`/`Argument` word at line start, or a scanned
argument.  Every token is stamped with the current `l.line`. -/
def scanTokenCore (st : LexState) : Token × LexState :=
  let st := skipWhitespaceGo st
  if st.currentLine.length ≤ st.linePos then
    ({ type := .newline, value := "\n", line := st.line, column := (st.linePos : Int) + 1 },
     { st with currentLine := [] })
  else
    let startCol : Int := (st.linePos : Int) + 1
    let rest := st.currentLine.drop st.linePos
    if rest.head? == some '#' then
      ({ type := .comment, value := String.mk rest, line := st.line, column := startCol },
       { st with linePos := st.currentLine.length })
    else
      if isAtLineStartGo st then
        let w := rest.takeWhile isWordChar
        let st' := { st with linePos := st.linePos + w.length }
        if IsValidInstruction (String.mk w) then
          ({ type := .instruction, value := strToUpper (String.mk w),
             line := st.line, column := startCol }, st')
        else
          ({ type := .argument, value := String.mk w, line := st.line, column := startCol }, st')
      else
        let r := scanArgumentGo st
        ({ type := .argument, value := r.1, line := st.line, column := startCol },
         { st with linePos := r.2 })

/-- Embedding of `Lexer.scanToken`: read the next logical line when the current one is
spent, emitting `EOF` when the input is exhausted. -/
def scanToken (st : LexState) : Token × LexState :=
  if st.currentLine.isEmpty || st.currentLine.length ≤ st.linePos then
    if st.atEOF then
      ({ type := .eof, value := "", line := st.line, column := st.column }, st)
    else
      let r := readNextLineGo st
      if !r.2 then
        ({ type := .eof, value := "", line := r.1.line, column := r.1.column }, r.1)
      else scanTokenCore r.1
  else scanTokenCore st

/-- Embedding of `Lexer.Tokenize`, with fuel bounding the number of loop iterations
(the Go loop does not terminate on every input — e.g. a line whose first
non-blank character is not a word character, `#`, or white space — so
the embedding makes the bound explicit). -/
def tokenizeGo : Nat → LexState → List Token → List Token
  | 0, _, acc => acc.reverse
  | fuel + 1, st, acc =>
    let r := scanToken st
    if r.1.type == .eof || r.1.type == .error then (r.1 :: acc).reverse
    else tokenizeGo fuel r.2 (r.1 :: acc)

/-- Embedding of `parser.TokenizeString` (with explicit fuel). -/
def TokenizeString (s : String) (fuel : Nat) : List Token :=
  tokenizeGo fuel
    { input := s.data, line := 0, column := 0, currentLine := [], linePos := 0, atEOF := false }
    []

/-! ## Sortedness of the analyzer output -/

theorem charListLt_asymm : ∀ {a b : List Char},
    charListLt a b = true → charListLt b a = false
  | [], [], h => by simp [charListLt] at h
  | [], _ :: _, _ => by simp [charListLt]
  | _ :: _, [], h => by simp [charListLt] at h
  | c :: cs, d :: ds, h => by
    simp only [charListLt, Bool.or_eq_true, Bool.and_eq_true, beq_iff_eq,
      decide_eq_true_eq] at h
    simp only [charListLt, Bool.or_eq_false_iff, Bool.and_eq_false_iff, beq_eq_false_iff_ne,
      decide_eq_false_iff_not]
    rcases h with h | ⟨rfl, h⟩
    · exact ⟨lt_asymm h, Or.inl (ne_of_gt h)⟩
    · exact ⟨lt_irrefl c, Or.inr (charListLt_asymm h)⟩

theorem findingLess_asymm {a b : Finding} (h : findingLess a b = true) :
    findingLess b a = false := by
  unfold findingLess at h ⊢
  by_cases hl : a.line = b.line
  · simp only [hl, bne_self_eq_false, if_false] at h ⊢
    exact charListLt_asymm h
  · have hba : (b.line != a.line) = true := by
      simpa [bne_iff_ne] using fun e => hl e.symm
    have hab : (a.line != b.line) = true := by simpa [bne_iff_ne] using hl
    rw [if_pos hab] at h
    rw [if_pos hba]
    simp only [decide_eq_true_eq] at h
    simp only [decide_eq_false_iff_not]
    omega

/-- The relation the final `sort.Slice` establishes between adjacent
findings: the later one is not less than the earlier one. -/
def FindingOrdered (a b : Finding) : Prop := findingLess b a = false

theorem head?_insertFinding {f : Finding} {l : List Finding} {y : Finding}
    (h : (insertFinding f l).head? = some y) : y = f ∨ l.head? = some y := by
  cases l with
  | nil => simp [insertFinding] at h; exact Or.inl h.symm
  | cons g gs =>
    rw [insertFinding] at h
    by_cases hg : findingLess g f = true
    · rw [if_pos hg] at h
      simp only [List.head?_cons, Option.some.injEq] at h
      exact Or.inr (by simp [h])
    · rw [if_neg hg] at h
      simp only [List.head?_cons, Option.some.injEq] at h
      exact Or.inl h.symm

theorem chain'_insertFinding {f : Finding} {l : List Finding}
    (h : List.Chain' FindingOrdered l) :
    List.Chain' FindingOrdered (insertFinding f l) := by
  induction l with
  | nil => simp [insertFinding]
  | cons g gs ih =>
    rw [insertFinding]
    rcases List.chain'_cons'.1 h with ⟨hhead, htail⟩
    by_cases hg : findingLess g f = true
    · rw [if_pos hg]
      refine List.chain'_cons'.2 ⟨?_, ih htail⟩
      intro y hy
      rcases head?_insertFinding (Option.mem_def.mp hy) with rfl | hy'
      · exact findingLess_asymm hg
      · exact hhead y (Option.mem_def.mpr hy')
    · rw [if_neg hg]
      refine List.chain'_cons'.2 ⟨?_, h⟩
      intro y hy
      simp only [List.head?_cons, Option.mem_def, Option.some.injEq] at hy
      subst hy
      exact eq_false_of_ne_true hg

theorem chain'_sortFindings (l : List Finding) :
    List.Chain' FindingOrdered (sortFindings l) := by
  induction l with
  | nil => simp [sortFindings]
  | cons f fs ih =>
    rw [sortFindings, List.foldr_cons]
    exact chain'_insertFinding ih

theorem mem_insertFinding {a f : Finding} {l : List Finding} :
    a ∈ insertFinding f l ↔ a = f ∨ a ∈ l := by
  induction l with
  | nil => simp [insertFinding]
  | cons g gs ih =>
    rw [insertFinding]
    by_cases h : findingLess g f = true
    · simp [h, ih]; tauto
    · simp [h, ih]

theorem mem_sortFindings {a : Finding} {l : List Finding} :
    a ∈ sortFindings l ↔ a ∈ l := by
  induction l with
  | nil => simp [sortFindings]
  | cons f fs ih =>
    rw [sortFindings, List.foldr_cons]
    rw [show List.foldr insertFinding [] fs = sortFindings fs from rfl] at *
    rw [mem_insertFinding]
    simp [ih]

/-- C2. For every Dockerfile tree (and for the nil tree) and every
global-ignore set, the findings returned by `Analyzer.Analyze` are sorted
by `(line, rule_id)`: for every adjacent pair, either the first has a
strictly smaller line, or the lines are equal and the first rule id is
not greater than the second (Go byte order on strings). -/
theorem C2_analyze_sorted (cfg : Config) (odf : Option Dockerfile) :
    List.Chain'
      (fun a b => a.line < b.line ∨ (a.line = b.line ∧ strLtGo b.ruleID a.ruleID = false))
      (Analyzer.analyze cfg odf) := by
  cases odf with
  | none => simp [Analyzer.analyze]
  | some df =>
    refine (chain'_sortFindings _).imp ?_
    intro a b hab
    unfold FindingOrdered findingLess at hab
    by_cases hl : b.line = a.line
    · rw [hl] at hab
      simp only [bne_self_eq_false, if_false] at hab
      exact Or.inr ⟨hl.symm, hab⟩
    · have : (b.line != a.line) = true := by simpa [bne_iff_ne] using hl
      rw [if_pos this] at hab
      simp only [decide_eq_false_iff_not] at hab
      exact Or.inl (by omega)

/-- C10. Calling `Analyzer.Analyze` with a nil Dockerfile returns the
empty finding sequence for every configuration; the rule loop is never
entered. -/
theorem C10_analyze_nil_guard (cfg : Config) : Analyzer.analyze cfg none = [] := rfl

/-! ## C9: DL3003 and empty WORKDIR paths -/

/-- The condition under which DL3003 does **not** fire, written from the
amended claim: the path starts with `/`, has `:` as its second
character, or starts with `$`.  The empty path satisfies none of these. -/
def absoluteLike (path : String) : Bool :=
  strStartsWith path "/"
  || (2 ≤ path.data.length && path.data.get? 1 == some ':')
  || strStartsWith path "$"

/-- The per-instruction DL3003 finding, written from the amended claim. -/
def dl3003Spec : Instruction → Option Finding
  | .workdirI ln _ path =>
    if absoluteLike path then none
    else
      some { ruleID := "DL3003", severity := .warning, line := ln, column := 1,
             message := "WORKDIR uses relative path '" ++ path ++ "'",
             suggestion := "Use an absolute path like '/" ++ path ++ "' for clarity" }
  | _ => none

theorem ifChainOr : ∀ a b c : Bool,
    (if a then true else if b then true else if c then true else false) = (a || b || c) := by
  decide

theorem isAbsolutePath_eq_absoluteLike (p : String) :
    isAbsolutePath p = absoluteLike p := by
  unfold isAbsolutePath absoluteLike
  by_cases h0 : p = ""
  · subst h0
    simp [strStartsWith, litAt]
  · have h0' : (p == "") = false := by simpa using h0
    rw [h0']
    simp only [Bool.false_eq_true, if_false]
    exact ifChainOr _ _ _

/-- The concrete input of the C9 counterexample: a tree whose only
instruction is a WORKDIR node with the empty path. -/
def c9df : Dockerfile :=
  { stages := [], comments := [], inlineIgnores := [],
    instructions := [Instruction.workdirI 1 "WORKDIR " ""] }

/-- C9, counterexample. The claim says a WORKDIR with the empty path
produces no DL3003 finding; the code's `isAbsolutePath` returns false on
the empty path, so the rule **does** fire on it. -/
theorem C9_counterexample :
    c9df.instructions = [Instruction.workdirI 1 "WORKDIR " ""]
    ∧ (RelativeWorkdirRule.check c9df).map (fun f => (f.ruleID, f.line))
        = [("DL3003", 1)] := by
  exact ⟨rfl, rfl⟩

/-- C9, amended. For every Dockerfile tree, DL3003 fires on exactly
the WORKDIR instructions whose path does not start with `/`, does not
have `:` as its second character, and does not start with `$`; in
particular the empty path fires.  (The finding is the one `dl3003Spec`
describes: on the WORKDIR's line, quoting only the path.) -/
theorem C9_relative_workdir (df : Dockerfile) :
    RelativeWorkdirRule.check df = df.instructions.filterMap dl3003Spec := by
  unfold RelativeWorkdirRule.check
  congr 1
  funext i
  cases i <;> simp only [dl3003Spec]
  case workdirI ln raw path =>
    rw [isAbsolutePath_eq_absoluteLike]
    by_cases h : absoluteLike path
    · simp [h]
    · have h' : absoluteLike path = false := by simpa using h
      simp [h']

/-! ## C5: DL3012 and `yum makecache` -/

/-- The per-instruction DL3012 finding, written from the amended claim: a
RUN fires iff its command contains `apt-get update` without
`apt-get (install|upgrade)` (first branch), or contains
`(yum|dnf) (update|upgrade)` without `(yum|dnf) install` while also
containing the substring `makecache` (second branch). -/
def dl3012Spec : Instruction → Option Finding
  | .runI ln _ cmd _ =>
    if aptGetUpdatePattern cmd && !aptGetInstallPattern cmd then
      some { ruleID := "DL3012", severity := .warning, line := ln, column := 1,
             message := "apt-get update without install in same RUN instruction",
             suggestion := "Combine 'apt-get update' with 'apt-get install' in the same RUN instruction" }
    else if yumUpdatePattern cmd && !yumInstallPattern cmd && strContains cmd "makecache" then
      some { ruleID := "DL3012", severity := .warning, line := ln, column := 1,
             message := "yum/dnf makecache without install in same RUN instruction",
             suggestion := "Combine cache refresh with install in the same RUN instruction" }
    else none
  | _ => none

/-- The concrete input of the C5 counterexample: a tree whose only RUN
command is exactly `yum makecache`. -/
def c5df : Dockerfile :=
  { stages := [], comments := [], inlineIgnores := [],
    instructions := [Instruction.runI 1 "RUN yum makecache" "yum makecache" true] }

/-- C5, counterexample. The claim says a RUN whose command is
`yum makecache` (which contains `(yum|dnf) makecache` and no
`(yum|dnf) install`) gets a DL3012 finding.  The code's yum branch also
requires the command to match `(yum|dnf)\s+(update|upgrade)`, which
`yum makecache` does not, so no finding is produced. -/
theorem C5_counterexample :
    c5df.instructions = [Instruction.runI 1 "RUN yum makecache" "yum makecache" true]
    ∧ strContains "yum makecache" "makecache" = true
    ∧ yumInstallPattern "yum makecache" = false
    ∧ UpdateWithoutInstallRule.check c5df = [] := by
  exact ⟨rfl, rfl, rfl, rfl⟩

/-- C5, amended. For every Dockerfile tree, DL3012 produces a finding
on a RUN instruction iff the RUN's command either contains
`apt-get update` without `apt-get (install|upgrade)`, or contains
`(yum|dnf) (update|upgrade)` without `(yum|dnf) install` and also
contains the substring `makecache`; the apt branch takes precedence and
at most one finding is produced per RUN. -/
theorem C5_update_without_install (df : Dockerfile) :
    UpdateWithoutInstallRule.check df = df.instructions.filterMap dl3012Spec := by
  unfold UpdateWithoutInstallRule.check
  congr 1

/-! ## C3: DL5000 requires a stage to report on -/

/-- The line on which the amended DL5000 claim places the finding: the
last stage's last instruction line; the stage's FROM line if it has no
instructions; `1` if it has neither. -/
def dl5000ReportLine (df : Dockerfile) : Int :=
  match df.stages.getLast? with
  | none => 1
  | some lastStage =>
    match lastStage.instructions.getLast? with
    | some i => i.lineOf
    | none =>
      match lastStage.fromInstr with
      | some f => f.lineNum
      | none => 1

/-- The concrete input of the C3 counterexample: the empty tree (no
stages, no instructions), as the parser produces for an empty file. -/
def c3emptyDf : Dockerfile :=
  { stages := [], instructions := [], comments := [], inlineIgnores := [] }

/-- C3, counterexample. The empty tree has zero HEALTHCHECK nodes in
`Dockerfile.instructions`, so the claim requires a DL5000 finding — but
the rule also requires at least one stage and produces none. -/
theorem C3_counterexample :
    c3emptyDf.instructions.any Instruction.isHealthcheck = false
    ∧ MissingHealthcheckRule.check c3emptyDf = [] :=
  ⟨rfl, rfl⟩

/-- C3, amended. For every Dockerfile tree, DL5000 produces a finding
iff the flat instruction list contains zero HEALTHCHECK nodes **and** the
tree has at least one stage; when it fires, the (single) finding is
reported on the last stage — its last instruction's line, else its FROM
line, else line 1. -/
theorem C3_missing_healthcheck (df : Dockerfile) :
    (MissingHealthcheckRule.check df ≠ []
      ↔ df.instructions.any Instruction.isHealthcheck = false ∧ df.stages ≠ [])
    ∧ ∀ f ∈ MissingHealthcheckRule.check df,
        f.ruleID = "DL5000" ∧ f.line = dl5000ReportLine df := by
  unfold MissingHealthcheckRule.check dl5000ReportLine
  by_cases hh : df.instructions.any Instruction.isHealthcheck = true
  · simp [hh]
  · have hh' : df.instructions.any Instruction.isHealthcheck = false := by simpa using hh
    rw [hh']
    simp only [Bool.false_eq_true, if_false]
    cases hst : df.stages.getLast? with
    | none =>
      have : df.stages = [] := by simpa using hst
      simp [this, hh']
    | some lastStage =>
      have hne : df.stages ≠ [] := by
        intro e
        rw [e] at hst
        simp at hst
      constructor
      · simp [hh', hne]
      · intro f hf
        simp only [List.mem_singleton] at hf
        subst hf
        cases h1 : lastStage.instructions.getLast? <;>
          cases h2 : lastStage.fromInstr <;> simp [h1, h2]

/-- The concrete input of the C3 witness: one stage, no HEALTHCHECK. -/
def c3witDf : Dockerfile :=
  { stages := [{ name := "", fromInstr := some ⟨1, "FROM ubuntu", "ubuntu", "", "", "", ""⟩,
                 instructions := [Instruction.fromI ⟨1, "FROM ubuntu", "ubuntu", "", "", "", ""⟩,
                                  Instruction.runI 2 "RUN x" "x" true],
                 index := 0 }],
    instructions := [Instruction.fromI ⟨1, "FROM ubuntu", "ubuntu", "", "", "", ""⟩,
                     Instruction.runI 2 "RUN x" "x" true],
    comments := [], inlineIgnores := [] }

/-- The DL5000 finding the rule produces on `c3witDf`. -/
def c3witF : Finding :=
  { ruleID := "DL5000", severity := .warning, line := 2, column := 1,
    message := "No HEALTHCHECK instruction found",
    suggestion := "Add 'HEALTHCHECK CMD <command>' to enable container health monitoring" }

/-- Witness for `C3_missing_healthcheck` at a concrete input. -/
theorem C3_witness :
    (MissingHealthcheckRule.check c3witDf ≠ [])
    ∧ (c3witF.ruleID = "DL5000" ∧ c3witF.line = dl5000ReportLine c3witDf) :=
  ⟨(C3_missing_healthcheck c3witDf).1.mpr ⟨by decide, by decide⟩,
   (C3_missing_healthcheck c3witDf).2 c3witF (by decide)⟩

/-! ## C7: DL3010 reports once per maximal run of RUNs -/

/-- The maximal blocks of consecutive RUN instructions, in order,
written from the claim: group consecutive RUNs, discard everything else.
`acc` is the block currently being collected. -/
def runBlocksGo (acc : List Instruction) : List Instruction → List (List Instruction)
  | [] => if acc.isEmpty then [] else [acc]
  | i :: rest =>
    if i.isRun then runBlocksGo (acc ++ [i]) rest
    else (if acc.isEmpty then [] else [acc]) ++ runBlocksGo [] rest

/-- Maximal runs of consecutive RUN instructions in a list. -/
def runBlocks (l : List Instruction) : List (List Instruction) :=
  runBlocksGo [] l

/-- The DL3010 findings as the claim describes them: one finding per
maximal run of at least two consecutive RUNs, on the line of the run's
first instruction, with the message naming the count. -/
def dl3010Spec (l : List Instruction) : List Finding :=
  (runBlocks l).filterMap fun b =>
    if 2 ≤ b.length then
      some { ruleID := "DL3010", severity := .warning,
             line := ((b.head?.map Instruction.lineOf).getD 0), column := 1,
             message := formatConsecutiveRunMessage (b.length : Int),
             suggestion := "Combine RUN instructions using '&&' to reduce layers" }
    else none

/-- Sanity: the maximal blocks jointly contain exactly the RUN
instructions of the list, in order. -/
theorem runBlocksGo_flatten : ∀ (l acc : List Instruction),
    (runBlocksGo acc l).flatten = acc ++ l.filter Instruction.isRun
  | [], acc => by
    by_cases h : acc.isEmpty <;> simp [runBlocksGo, h]
    simpa using h
  | i :: rest, acc => by
    rw [runBlocksGo]
    by_cases h : i.isRun
    · rw [if_pos h, runBlocksGo_flatten rest (acc ++ [i])]
      simp [h]
    · have h' : i.isRun = false := by simpa using h
      rw [if_neg (by simp [h']), List.flatten_append, runBlocksGo_flatten rest []]
      by_cases ha : acc.isEmpty <;> simp [ha, h']
      simpa using ha

/-- The one-block emission of `dl3010Spec`, shared by the equivalence
proof. -/
def dl3010Of (b : List Instruction) : Option Finding :=
  if 2 ≤ b.length then
    some { ruleID := "DL3010", severity := .warning,
           line := ((b.head?.map Instruction.lineOf).getD 0), column := 1,
           message := formatConsecutiveRunMessage (b.length : Int),
           suggestion := "Combine RUN instructions using '&&' to reduce layers" }
  else none

theorem flush_eq_emit (acc : List Instruction) :
    ConsecutiveRunRule.flush acc
      = (if acc.isEmpty then [] else [acc]).filterMap dl3010Of := by
  by_cases h : acc.isEmpty
  · have : acc = [] := by simpa using h
    subst this
    simp [ConsecutiveRunRule.flush, dl3010Of]
  · rw [if_neg h]
    unfold ConsecutiveRunRule.flush dl3010Of
    by_cases h2 : 2 ≤ acc.length <;> simp [h2]

theorem consecGo_eq_blocks : ∀ (l acc : List Instruction),
    ConsecutiveRunRule.go acc l = (runBlocksGo acc l).filterMap dl3010Of
  | [], acc => by
    rw [ConsecutiveRunRule.go, runBlocksGo, flush_eq_emit]
  | i :: rest, acc => by
    rw [ConsecutiveRunRule.go, runBlocksGo]
    by_cases h : i.isRun
    · rw [if_pos h, if_pos h, consecGo_eq_blocks rest (acc ++ [i])]
    · rw [if_neg h, if_neg h, List.filterMap_append, flush_eq_emit,
        consecGo_eq_blocks rest []]

/-- C7. For every Dockerfile tree, the DL3010 findings are exactly
one finding per maximal run of two or more consecutive RUN instructions
in the flat instruction list (including a run ending at end-of-list),
each on the line of the first RUN of its run, with the message naming
the count of RUNs in the run. -/
theorem C7_consecutive_runs (df : Dockerfile) :
    ConsecutiveRunRule.check df = dl3010Spec df.instructions := by
  unfold ConsecutiveRunRule.check dl3010Spec runBlocks
  rw [consecGo_eq_blocks]
  rfl

/-! ## C8: one DL4002 finding per stage without USER -/

/-- The last instruction's line of a stage (`0` when empty, which the
hypotheses of `C8_no_user_per_stage` rule out). -/
def stageLastLine (s : Stage) : Int :=
  match s.instructions.getLast? with
  | some i => i.lineOf
  | none => 0

/-- The DL4002 finding as the claim describes it for a stage without
USER: at the stage's last instruction line. -/
def noUserFindingOf (s : Stage) : Finding :=
  { ruleID := "DL4002", severity := .warning, line := stageLastLine s, column := 1,
    message := "No USER instruction in "
      ++ (if s.name == "" then "stage " ++ intToString s.index else s.name)
      ++ "; container will run as root",
    suggestion := "Add 'USER <username>' instruction to run container as non-root user" }

theorem noUserScan_fst (l : List Instruction) (b : Bool) (z : Int) :
    (l.foldl (fun p i => (p.1 || i.isUser, i.lineOf)) (b, z)).1
      = (b || l.any Instruction.isUser) := by
  induction l generalizing b z with
  | nil => simp
  | cons i rest ih =>
    rw [List.foldl_cons, ih]
    simp [Bool.or_assoc]

theorem noUserScan_snd (l : List Instruction) (b : Bool) (z : Int) :
    (l.foldl (fun p i => (p.1 || i.isUser, i.lineOf)) (b, z)).2
      = match l.getLast? with
        | some i => i.lineOf
        | none => z := by
  induction l generalizing b z with
  | nil => simp
  | cons i rest ih =>
    rw [List.foldl_cons, ih]
    cases rest with
    | nil => simp
    | cons j t =>
      rw [List.getLast?_cons_cons]
      cases hjt : (j :: t).getLast? with
      | none => simp at hjt
      | some x => simp [hjt]

theorem stageFinding_eq (s : Stage)
    (hfrom : s.fromInstr.isSome)
    (hne : s.instructions ≠ [])
    (hline : ∀ i ∈ s.instructions, 1 ≤ i.lineOf) :
    NoUserRule.stageFinding s
      = if s.instructions.any Instruction.isUser then none
        else some (noUserFindingOf s) := by
  obtain ⟨fd, hfd⟩ := Option.isSome_iff_exists.mp hfrom
  obtain ⟨last, hlast⟩ := Option.isSome_iff_exists.mp (List.getLast?_isSome.mpr hne)
  have hll : 1 ≤ last.lineOf := hline last (List.mem_of_getLast?_eq_some hlast)
  unfold NoUserRule.stageFinding NoUserRule.stageScan
  rw [show (s.instructions.foldl (fun p i => (p.1 || i.isUser, i.lineOf)) (false, 0))
      = ((s.instructions.foldl (fun p i => (p.1 || i.isUser, i.lineOf)) (false, 0)).1,
         (s.instructions.foldl (fun p i => (p.1 || i.isUser, i.lineOf)) (false, 0)).2)
    from rfl]
  rw [noUserScan_fst, noUserScan_snd, hlast, hfd]
  by_cases hu : s.instructions.any Instruction.isUser
  · simp [hu]
  · have hu' : s.instructions.any Instruction.isUser = false := by simpa using hu
    rw [hu']
    have hpos : (0 : Int) < last.lineOf := by omega
    simp only [Bool.false_or, Bool.not_false, if_true, hpos, if_pos]
    unfold noUserFindingOf stageLastLine
    rw [hlast]
    simp

/-- C8. For every Dockerfile tree whose stages each carry a FROM
pointer and a non-empty, 1-based-line instruction list (the parser's
data-model invariants), the DL4002 findings are exactly one finding per
stage without a USER instruction, in stage order, each at that stage's
last instruction line (which is the FROM line when the stage has no
other instruction); in particular their number equals the number of
such stages. -/
theorem C8_no_user_per_stage (df : Dockerfile)
    (hfrom : ∀ s ∈ df.stages, s.fromInstr.isSome)
    (hne : ∀ s ∈ df.stages, s.instructions ≠ [])
    (hline : ∀ s ∈ df.stages, ∀ i ∈ s.instructions, 1 ≤ i.lineOf) :
    NoUserRule.check df
      = (df.stages.filter fun s => !(s.instructions.any Instruction.isUser)).map
          noUserFindingOf
    ∧ (NoUserRule.check df).length
      = (df.stages.filter fun s => !(s.instructions.any Instruction.isUser)).length := by
  have main : ∀ (ss : List Stage),
      (∀ s ∈ ss, s.fromInstr.isSome) → (∀ s ∈ ss, s.instructions ≠ []) →
      (∀ s ∈ ss, ∀ i ∈ s.instructions, 1 ≤ i.lineOf) →
      ss.filterMap NoUserRule.stageFinding
        = (ss.filter fun s => !(s.instructions.any Instruction.isUser)).map
            noUserFindingOf := by
    intro ss
    induction ss with
    | nil => intro _ _ _; rfl
    | cons s rest ih =>
      intro h1 h2 h3
      rw [List.filterMap_cons,
        stageFinding_eq s (h1 s (by simp)) (h2 s (by simp)) (h3 s (by simp)),
        ih (fun t ht => h1 t (by simp [ht])) (fun t ht => h2 t (by simp [ht]))
          (fun t ht => h3 t (by simp [ht]))]
      by_cases hu : s.instructions.any Instruction.isUser
      · simp [hu]
      · have hu' : s.instructions.any Instruction.isUser = false := by simpa using hu
        simp [hu']
  have hmain := main df.stages hfrom hne hline
  exact ⟨hmain, by rw [show NoUserRule.check df = _ from hmain, List.length_map]⟩

/-- The concrete input of the C8 witness: two stages, the first without
USER (last instruction on line 2), the second with USER. -/
def c8witDf : Dockerfile :=
  { stages :=
      [{ name := "builder", fromInstr := some ⟨1, "FROM golang AS builder", "golang", "", "", "builder", ""⟩,
         instructions := [Instruction.fromI ⟨1, "FROM golang AS builder", "golang", "", "", "builder", ""⟩,
                          Instruction.runI 2 "RUN go build" "go build" true],
         index := 0 },
       { name := "", fromInstr := some ⟨3, "FROM alpine", "alpine", "", "", "", ""⟩,
         instructions := [Instruction.fromI ⟨3, "FROM alpine", "alpine", "", "", "", ""⟩,
                          Instruction.userI 4 "USER nobody" "nobody" ""],
         index := 1 }],
    instructions :=
      [Instruction.fromI ⟨1, "FROM golang AS builder", "golang", "", "", "builder", ""⟩,
       Instruction.runI 2 "RUN go build" "go build" true,
       Instruction.fromI ⟨3, "FROM alpine", "alpine", "", "", "", ""⟩,
       Instruction.userI 4 "USER nobody" "nobody" ""],
    comments := [], inlineIgnores := [] }

/-- Witness for `C8_no_user_per_stage` at a concrete input. -/
theorem C8_witness :
    NoUserRule.check c8witDf
      = (c8witDf.stages.filter fun s => !(s.instructions.any Instruction.isUser)).map
          noUserFindingOf
    ∧ (NoUserRule.check c8witDf).length
      = (c8witDf.stages.filter fun s => !(s.instructions.any Instruction.isUser)).length :=
  C8_no_user_per_stage c8witDf (by decide) (by decide) (by decide)

/-! ## C6: token line numbers under line continuations -/

theorem takeWhile_clean_append (pre rest : List Char) (h : '\n' ∉ pre) :
    (pre ++ '\n' :: rest).takeWhile (fun c => c != '\n') = pre := by
  induction pre with
  | nil => simp
  | cons c cs ih =>
    have hc : c ≠ '\n' := fun e => h (by simp [e])
    rw [List.cons_append, List.takeWhile_cons, if_pos (by simp [hc])]
    rw [ih (fun hm => h (by simp [hm]))]

theorem dropWhile_clean_append (pre rest : List Char) (h : '\n' ∉ pre) :
    (pre ++ '\n' :: rest).dropWhile (fun c => c != '\n') = '\n' :: rest := by
  induction pre with
  | nil => simp
  | cons c cs ih =>
    have hc : c ≠ '\n' := fun e => h (by simp [e])
    rw [List.cons_append, List.dropWhile_cons, if_pos (by simp [hc])]
    exact ih (fun hm => h (by simp [hm]))

theorem trimRightCRLF_clean (p : List Char) (hn : '\n' ∉ p) (hr : '\r' ∉ p) :
    trimRightCRLF (p ++ ['\n']) = p := by
  unfold trimRightCRLF
  rw [List.reverse_append]
  simp only [List.reverse_cons, List.reverse_nil, List.nil_append, List.singleton_append,
    List.dropWhile_cons]
  simp only [show (('\n' == '\r') || ('\n' == '\n')) = true from rfl, if_true]
  have hrest : p.reverse.dropWhile (fun c => c == '\r' || c == '\n') = p.reverse := by
    cases hpr : p.reverse with
    | nil => simp
    | cons c cs =>
      have hcp : c ∈ p := List.mem_reverse.mp (by rw [hpr]; simp)
      have hc1 : c ≠ '\r' := fun e => hr (e ▸ hcp)
      have hc2 : c ≠ '\n' := fun e => hn (e ▸ hcp)
      rw [List.dropWhile_cons]
      simp [hc1, hc2]
  rw [hrest, List.reverse_reverse]

/-- Stepping lemma: folding one newline-terminated physical line that
contains no `\n`/`\r`.  A trailing backslash folds the next physical
lines in (incrementing the counter once more); otherwise the logical
line is complete after this single physical line. -/
theorem foldLogicalF_step (p : List Char) (rest : List Char) (k : Nat)
    (hn : '\n' ∉ p) (hr : '\r' ∉ p) :
    foldLogicalF (k + 1) (p ++ '\n' :: rest)
      = if p.getLast? == some '\\' then
          (p.dropLast ++ [' '] ++ (foldLogicalF k rest).1,
           (foldLogicalF k rest).2.1, (foldLogicalF k rest).2.2.1 + 1,
           (foldLogicalF k rest).2.2.2)
        else (p, rest, 1, false) := by
  rw [foldLogicalF]
  rw [takeWhile_clean_append p rest hn, dropWhile_clean_append p rest hn]
  dsimp only
  rw [trimRightCRLF_clean p hn hr]

/-- Embedding of `readNextLine` on a logical line of `init.length + 1` physical lines
(each newline-terminated, the non-final ones ending in `\`): the folded
line replaces each continuation backslash by a space, and the line
counter advances by the **number of physical lines consumed** — so the
tokens subsequently stamped with the counter carry the number of the
*last* physical line of the logical line. -/
theorem foldLogicalF_logical_line (init : List (List Char)) :
    ∀ (lastLine : List Char) (fuel : Nat),
    (∀ p ∈ init, ('\n' ∉ p ∧ '\r' ∉ p) ∧ p.getLast? = some '\\') →
    '\n' ∉ lastLine → '\r' ∉ lastLine → lastLine.getLast? ≠ some '\\' →
    init.length + 1 ≤ fuel →
    foldLogicalF fuel (((init ++ [lastLine]).map (fun p => p ++ ['\n'])).flatten)
      = ((init.map fun p => p.dropLast ++ [' ']).flatten ++ lastLine, [],
         init.length + 1, false) := by
  induction init with
  | nil =>
    intro lastLine fuel _ h2 h3 h4 h5
    obtain ⟨k, rfl⟩ : ∃ k, fuel = k + 1 := ⟨fuel - 1, by omega⟩
    have hflat : (([] ++ [lastLine]).map (fun p => p ++ ['\n'])).flatten
        = lastLine ++ '\n' :: [] := by simp
    rw [hflat, foldLogicalF_step lastLine [] k h2 h3]
    have hc : (lastLine.getLast? == some '\\') = false := by
      simpa using h4
    rw [hc]
    simp
  | cons p init' ih =>
    intro lastLine fuel h1 h2 h3 h4 h5
    obtain ⟨k, rfl⟩ : ∃ k, fuel = k + 1 := ⟨fuel - 1, by omega⟩
    have hp := h1 p (by simp)
    have hflat : ((p :: init' ++ [lastLine]).map (fun p => p ++ ['\n'])).flatten
        = p ++ '\n' :: ((init' ++ [lastLine]).map (fun p => p ++ ['\n'])).flatten := by
      simp
    rw [hflat, foldLogicalF_step p _ k hp.1.1 hp.1.2]
    have hc : (p.getLast? == some '\\') = true := by simp [hp.2]
    rw [hc]
    simp only [if_true]
    rw [ih lastLine k (fun q hq => h1 q (by simp [hq])) h2 h3 h4 (by simp at h5; omega)]
    simp [List.append_assoc]

theorem scanTokenCore_line (st : LexState) : (scanTokenCore st).1.line = st.line := by
  unfold scanTokenCore
  dsimp only
  split
  · rfl
  · split
    · rfl
    · split
      · split <;> rfl
      · rfl

/-- The concrete input of the C6 counterexample: the logical line
`RUN a \` + `b` spanning physical lines 1 and 2. -/
def c6input : String := "RUN a \\\nb"

/-- C6, counterexample. The claim says tokens of a folded logical
line carry the line number of its *first* physical line (here 1).  The
lexer increments its line counter once per physical line consumed before
any token of the logical line is emitted, so the tokens carry line 2 —
the number of the last physical line. -/
theorem C6_counterexample :
    (TokenizeString c6input 20).head?
      = some { type := TokenType.instruction, value := "RUN", line := 2, column := 1 } := by
  rfl

/-- C6, amended. For a logical line folded from several physical
lines, the tokens emitted for that logical line carry the line number of
the **last** physical line of the logical line: `readNextLine` advances
the line counter by the number of physical lines consumed
(`foldLogicalF_logical_line`-style statement, first conjunct), and
`scanToken`'s core stamps every token with the counter unchanged (second
conjunct). -/
theorem C6_token_lines (init : List (List Char)) (lastLine : List Char) (fuel : Nat)
    (hinit : ∀ p ∈ init, ('\n' ∉ p ∧ '\r' ∉ p) ∧ p.getLast? = some '\\')
    (h2 : '\n' ∉ lastLine) (h3 : '\r' ∉ lastLine)
    (h4 : lastLine.getLast? ≠ some '\\')
    (h5 : init.length + 1 ≤ fuel) :
    foldLogicalF fuel (((init ++ [lastLine]).map (fun p => p ++ ['\n'])).flatten)
      = ((init.map fun p => p.dropLast ++ [' ']).flatten ++ lastLine, [],
         init.length + 1, false)
    ∧ ∀ st : LexState, (scanTokenCore st).1.line = st.line :=
  ⟨foldLogicalF_logical_line init lastLine fuel hinit h2 h3 h4 h5,
   scanTokenCore_line⟩

/-- Witness for `C6_token_lines` at the counterexample's input: the
two physical lines `RUN a \` and `b` fold into one logical line and the
counter advances by 2. -/
theorem C6_witness :
    foldLogicalF 2 (((["RUN a \\".data] ++ ["b".data]).map (fun p => p ++ ['\n'])).flatten)
      = ((["RUN a \\".data].map fun p => p.dropLast ++ [' ']).flatten ++ "b".data, [],
         2, false) :=
  (C6_token_lines ["RUN a \\".data] "b".data 2
    (by decide) (by decide) (by decide) (by decide) (by decide)).1

/-! ## C4: which line an inline-ignore directive suppresses -/

/-- The concatenated rule outputs in registry order with the
global-ignore filter applied but **without** the inline-ignore filter. -/
def rawFindings (cfg : Config) (df : Dockerfile) : List Finding :=
  (registryAll.map fun rule =>
    if cfg.ignoreRules.any (fun ruleID => ruleID == rule.1) then [] else rule.2 df).flatten

theorem analyzeLoop_eq (cfg : Config) (df : Dockerfile) :
    ∀ (entries : List (String × (Dockerfile → List Finding))) (acc : List Finding),
      entries.foldl (fun acc rule =>
        if cfg.ignoreRules.any (fun ruleID => ruleID == rule.1) then acc
        else acc ++ (rule.2 df).filter
          (fun finding => !Analyzer.isIgnoredByInlineComment df finding)) acc
      = acc ++ ((entries.map fun rule =>
          if cfg.ignoreRules.any (fun ruleID => ruleID == rule.1) then []
          else rule.2 df).flatten).filter
            (fun finding => !Analyzer.isIgnoredByInlineComment df finding) := by
  intro entries
  induction entries with
  | nil => intro acc; simp
  | cons e rest ih =>
    intro acc
    rw [List.foldl_cons]
    by_cases h : cfg.ignoreRules.any (fun ruleID => ruleID == e.1)
    · rw [if_pos h, ih, List.map_cons, if_pos h]
      simp
    · rw [if_neg h, ih, List.map_cons, if_neg h]
      simp [List.filter_append, List.append_assoc]

theorem analyze_eq_raw (cfg : Config) (df : Dockerfile) :
    Analyzer.analyze cfg (some df)
      = sortFindings ((rawFindings cfg df).filter
          (fun finding => !Analyzer.isIgnoredByInlineComment df finding)) := by
  unfold Analyzer.analyze rawFindings
  dsimp only
  rw [analyzeLoop_eq]
  simp

/-- A rule id is suppressed on a line by the inline-ignore map. -/
def SuppressedAt (m : List (Int × List String)) (l : Int) (r : String) : Prop :=
  ∃ ids, lookupIgnores m l = some ids ∧ r ∈ ids

theorem lookup_mapAppend (k : Int) (v : List String) (l : Int) :
    ∀ m, lookupIgnores (mapAppend m k v) l
      = if l = k then some ((lookupIgnores m k).getD [] ++ v) else lookupIgnores m l := by
  intro m
  induction m with
  | nil =>
    rw [mapAppend]
    by_cases hl : l = k
    · subst hl
      simp [lookupIgnores]
    · have h1 : (k == l) = false := by simpa using fun e => hl e.symm
      simp [lookupIgnores, h1, hl]
  | cons p rest ih =>
    obtain ⟨k', v'⟩ := p
    rw [mapAppend]
    by_cases hk : k' = k
    · subst hk
      rw [if_pos (by simp)]
      by_cases hl : l = k'
      · subst hl
        simp [lookupIgnores]
      · have h1 : (k' == l) = false := by simpa using fun e => hl e.symm
        simp [lookupIgnores, h1, hl]
    · rw [if_neg (by simpa using hk)]
      by_cases hl : l = k'
      · subst hl
        simp [lookupIgnores, hk]
      · have h1 : (k' == l) = false := by simpa using fun e => hl e.symm
        simp only [lookupIgnores, h1, Bool.false_eq_true, if_false]
        rw [ih]
        by_cases h3 : l = k
        · subst h3
          have h4 : (k' == l) = false := by simpa using fun e => hl e.symm
          simp [lookupIgnores, h4]
        · simp [h3]

theorem suppressed_parseStep (m : List (Int × List String)) (c : Comment)
    (l : Int) (r : String) :
    SuppressedAt (Parser.parseInlineIgnore m c.text c.lineNum) l r
      ↔ SuppressedAt m l r ∨ (l = c.lineNum + 1 ∧ r ∈ directiveRuleIDs c.text) := by
  unfold Parser.parseInlineIgnore
  by_cases hids : (directiveRuleIDs c.text).isEmpty
  · have hnil : directiveRuleIDs c.text = [] := by simpa using hids
    simp [hids, hnil]
  · rw [if_neg hids]
    unfold SuppressedAt
    rw [lookup_mapAppend]
    by_cases hl : l = c.lineNum + 1
    · rw [if_pos hl]
      constructor
      · rintro ⟨ids, hids2, hr⟩
        obtain rfl : (lookupIgnores m (c.lineNum + 1)).getD [] ++ directiveRuleIDs c.text = ids := by
          simpa using hids2
        rcases List.mem_append.mp hr with hr1 | hr2
        · refine Or.inl ⟨(lookupIgnores m (c.lineNum + 1)).getD [], ?_, hr1⟩
          cases hlk : lookupIgnores m (c.lineNum + 1) with
          | none => rw [hlk] at hr1; simp at hr1
          | some ids' => rw [hl, hlk]; simp
        · exact Or.inr ⟨hl, hr2⟩
      · rintro (⟨ids, hids2, hr⟩ | ⟨_, hr⟩)
        · refine ⟨_, rfl, List.mem_append.mpr (Or.inl ?_)⟩
          rw [hl] at hids2
          rw [hids2]
          exact hr
        · exact ⟨_, rfl, List.mem_append.mpr (Or.inr hr)⟩
    · rw [if_neg hl]
      simp [SuppressedAt, hl]

theorem suppressed_foldl (l : Int) (r : String) :
    ∀ (cs : List Comment) (m : List (Int × List String)),
      SuppressedAt (cs.foldl (fun m c => Parser.parseInlineIgnore m c.text c.lineNum) m) l r
        ↔ SuppressedAt m l r
          ∨ ∃ c ∈ cs, l = c.lineNum + 1 ∧ r ∈ directiveRuleIDs c.text := by
  intro cs
  induction cs with
  | nil => intro m; simp
  | cons c rest ih =>
    intro m
    rw [List.foldl_cons, ih, suppressed_parseStep]
    constructor
    · rintro ((hm | hc) | ⟨c', hc', h1, h2⟩)
      · exact Or.inl hm
      · exact Or.inr ⟨c, by simp, hc.1, hc.2⟩
      · exact Or.inr ⟨c', by simp [hc'], h1, h2⟩
    · rintro (hm | ⟨c', hc', h1, h2⟩)
      · exact Or.inl (Or.inl hm)
      · rcases List.mem_cons.mp hc' with rfl | hrest
        · exact Or.inl (Or.inr ⟨h1, h2⟩)
        · exact Or.inr ⟨c', hrest, h1, h2⟩

/-- C4, amended. The inline-ignore directive at source line `L`
suppresses findings on line `L + 1` — the source line immediately after
the comment, whether or not it is blank — and nothing else.  Stated in
three parts: (1) `Analyze` keeps exactly the findings of the
(non-globally-ignored) rules that are not inline-suppressed at their own
line; (2) a finding is inline-suppressed iff its `(line, rule_id)` is in
the tree's inline-ignore map; (3) the parser's map built from the
comments suppresses `(l, r)` iff some comment at line `l - 1` carries a
directive naming `r`. -/
theorem C4_inline_ignore_line (cfg : Config) (df : Dockerfile) (f : Finding)
    (l : Int) (r : String) :
    (f ∈ Analyzer.analyze cfg (some df)
      ↔ f ∈ rawFindings cfg df ∧ Analyzer.isIgnoredByInlineComment df f = false)
    ∧ (Analyzer.isIgnoredByInlineComment df f = true
      ↔ SuppressedAt df.inlineIgnores f.line f.ruleID)
    ∧ (SuppressedAt (buildInlineIgnores df.comments) l r
      ↔ ∃ c ∈ df.comments, l = c.lineNum + 1 ∧ r ∈ directiveRuleIDs c.text) := by
  refine ⟨?_, ?_, ?_⟩
  · rw [analyze_eq_raw, mem_sortFindings, List.mem_filter]
    simp
  · unfold Analyzer.isIgnoredByInlineComment SuppressedAt
    cases h : lookupIgnores df.inlineIgnores f.line with
    | none => simp
    | some ids =>
      simp only [Option.some.injEq]
      constructor
      · intro ha
        obtain ⟨x, hx, he⟩ := List.any_eq_true.mp ha
        exact ⟨ids, rfl, by rwa [show x = f.ruleID from by simpa using he] at hx⟩
      · rintro ⟨ids', hi, hr⟩
        subst hi
        exact List.any_eq_true.mpr ⟨f.ruleID, hr, by simp⟩
  · have := suppressed_foldl l r df.comments []
    unfold buildInlineIgnores
    rw [this]
    simp [SuppressedAt, lookupIgnores]

/-- The FROM node of the C4 counterexample (line 3 of the input text). -/
def c4from : FromData := ⟨3, "FROM ubuntu", "ubuntu", "", "", "", ""⟩

/-- The concrete input of the C4 counterexample: the tree the parser
produces for the text `# docker-lint ignore: DL3006\n\nFROM ubuntu\n` —
the directive comment on line 1, a **blank** line 2, and the FROM on
line 3 (the next non-blank source line).  Its inline-ignore map is built
by the embedded `parseInlineIgnore` from the comment. -/
def c4df : Dockerfile :=
  { stages := [{ name := "", fromInstr := some c4from,
                 instructions := [Instruction.fromI c4from], index := 0 }],
    instructions := [Instruction.fromI c4from],
    comments := [{ lineNum := 1, text := "# docker-lint ignore: DL3006" }],
    inlineIgnores :=
      buildInlineIgnores [{ lineNum := 1, text := "# docker-lint ignore: DL3006" }] }

/-- C4, counterexample. The claim says the directive suppresses
DL3006 on the next **non-blank** source line (line 3).  The parser
records the suppression against line 2 (the blank line immediately after
the comment), so the DL3006 finding on line 3 survives analysis. -/
theorem C4_counterexample :
    c4df.inlineIgnores = [(2, ["DL3006"])]
    ∧ (Analyzer.analyze ⟨[]⟩ (some c4df)).any
        (fun f => f.ruleID == "DL3006" && f.line == 3) = true :=
  ⟨rfl, rfl⟩

/-- The DL3006 finding `Analyze` produces on `c4df`. -/
def c4f : Finding :=
  { ruleID := "DL3006", severity := .warning, line := 3, column := 1,
    message := "Image 'ubuntu' does not have an explicit tag, defaulting to 'latest'",
    suggestion := "Use explicit tag like 'ubuntu:<version>' for reproducible builds" }

/-- Witness for `C4_inline_ignore_line` at a concrete input. -/
theorem C4_witness :
    c4f ∈ Analyzer.analyze ⟨[]⟩ (some c4df)
    ∧ SuppressedAt (buildInlineIgnores c4df.comments) 2 "DL3006" :=
  ⟨((C4_inline_ignore_line ⟨[]⟩ c4df c4f 2 "DL3006").1).mpr ⟨by decide, by decide⟩,
   ((C4_inline_ignore_line ⟨[]⟩ c4df c4f 2 "DL3006").2.2).mpr
     ⟨{ lineNum := 1, text := "# docker-lint ignore: DL3006" }, by decide, by decide, by decide⟩⟩

/-! ## C1: secret values never reach any finding

The literal claim — no finding contains the ENV value as a substring —
fails on coincidences (the value `"ENV"` occurs in DL4000's own fixed
message text).  What the code actually guarantees is stronger and
stated here: no rule reads `EnvInstruction.Value` or
`ArgInstruction.Default`, so the analyzer's output is unchanged under
**any** replacement of these fields. -/

/-- Replace every ENV value by `g value` and every ARG default by
`h default`, recursively under ONBUILD; every other field is kept. -/
def scrubInstr (g h : String → String) : Instruction → Instruction
  | .envI ln raw key value => .envI ln raw key (g value)
  | .argI ln raw name dflt => .argI ln raw name (h dflt)
  | .onbuildI ln raw inner => .onbuildI ln raw (scrubInstr g h inner)
  | i => i

/-- Embedding of `scrubInstr` applied to a stage's instruction list. -/
def scrubStage (g h : String → String) (s : Stage) : Stage :=
  { s with instructions := s.instructions.map (scrubInstr g h) }

/-- Embedding of `scrubInstr` applied to a whole tree (the flat list and the
stages; comments and the inline-ignore map carry no ENV/ARG values). -/
def scrubDockerfile (g h : String → String) (df : Dockerfile) : Dockerfile :=
  { df with instructions := df.instructions.map (scrubInstr g h),
            stages := df.stages.map (scrubStage g h) }

theorem scrubInstr_lineOf (g h : String → String) (i : Instruction) :
    (scrubInstr g h i).lineOf = i.lineOf := by cases i <;> rfl

theorem scrubInstr_isRun (g h : String → String) (i : Instruction) :
    (scrubInstr g h i).isRun = i.isRun := by cases i <;> rfl

theorem map_congr_fun {α β : Type _} {f g : α → β} (h : ∀ a, f a = g a) :
    ∀ l : List α, l.map f = l.map g
  | [] => rfl
  | a :: l => by rw [List.map_cons, List.map_cons, h a, map_congr_fun h l]

theorem filterMap_congr_fun {α β : Type _} {f g : α → Option β} (h : ∀ a, f a = g a) :
    ∀ l : List α, l.filterMap f = l.filterMap g
  | [] => rfl
  | a :: l => by rw [List.filterMap_cons, List.filterMap_cons, h a, filterMap_congr_fun h l]

/-- Generic transfer: a per-instruction rule body that is unchanged by
the scrub gives the same `filterMap` on the scrubbed list. -/
theorem filterMap_scrub (g h : String → String) (F : Instruction → Option Finding)
    (hF : ∀ i, F (scrubInstr g h i) = F i) (l : List Instruction) :
    (l.map (scrubInstr g h)).filterMap F = l.filterMap F := by
  rw [List.filterMap_map]
  congr 1
  funext i
  exact hF i

theorem missingTag_scrub (g h : String → String) (df : Dockerfile) :
    MissingTagRule.check (scrubDockerfile g h df) = MissingTagRule.check df := by
  unfold MissingTagRule.check scrubDockerfile
  exact filterMap_scrub g h _ (fun i => by cases i <;> rfl) _

theorem latestTag_scrub (g h : String → String) (df : Dockerfile) :
    LatestTagRule.check (scrubDockerfile g h df) = LatestTagRule.check df := by
  unfold LatestTagRule.check scrubDockerfile
  exact filterMap_scrub g h _ (fun i => by cases i <;> rfl) _

theorem largeBaseImage_scrub (g h : String → String) (df : Dockerfile) :
    LargeBaseImageRule.check (scrubDockerfile g h df) = LargeBaseImageRule.check df := by
  unfold LargeBaseImageRule.check scrubDockerfile
  exact filterMap_scrub g h _ (fun i => by cases i <;> rfl) _

theorem cacheNotCleaned_scrub (g h : String → String) (df : Dockerfile) :
    CacheNotCleanedRule.check (scrubDockerfile g h df) = CacheNotCleanedRule.check df := by
  unfold CacheNotCleanedRule.check scrubDockerfile
  exact filterMap_scrub g h _ (fun i => by cases i <;> rfl) _

theorem updateWithoutInstall_scrub (g h : String → String) (df : Dockerfile) :
    UpdateWithoutInstallRule.check (scrubDockerfile g h df)
      = UpdateWithoutInstallRule.check df := by
  unfold UpdateWithoutInstallRule.check scrubDockerfile
  exact filterMap_scrub g h _ (fun i => by cases i <;> rfl) _

theorem secretInEnv_scrub (g h : String → String) (df : Dockerfile) :
    SecretInEnvRule.check (scrubDockerfile g h df) = SecretInEnvRule.check df := by
  unfold SecretInEnvRule.check scrubDockerfile
  exact filterMap_scrub g h _ (fun i => by cases i <;> rfl) _

theorem secretInArg_scrub (g h : String → String) (df : Dockerfile) :
    SecretInArgRule.check (scrubDockerfile g h df) = SecretInArgRule.check df := by
  unfold SecretInArgRule.check scrubDockerfile
  exact filterMap_scrub g h _ (fun i => by cases i <;> rfl) _

theorem addWithURL_scrub (g h : String → String) (df : Dockerfile) :
    AddWithURLRule.check (scrubDockerfile g h df) = AddWithURLRule.check df := by
  unfold AddWithURLRule.check scrubDockerfile
  exact filterMap_scrub g h _ (fun i => by cases i <;> rfl) _

theorem addOverCopy_scrub (g h : String → String) (df : Dockerfile) :
    AddOverCopyRule.check (scrubDockerfile g h df) = AddOverCopyRule.check df := by
  unfold AddOverCopyRule.check scrubDockerfile
  exact filterMap_scrub g h _ (fun i => by cases i <;> rfl) _

theorem wildcardCopy_scrub (g h : String → String) (df : Dockerfile) :
    WildcardCopyRule.check (scrubDockerfile g h df) = WildcardCopyRule.check df := by
  unfold WildcardCopyRule.check scrubDockerfile
  exact filterMap_scrub g h _ (fun i => by cases i <;> rfl) _

theorem relativeWorkdir_scrub (g h : String → String) (df : Dockerfile) :
    RelativeWorkdirRule.check (scrubDockerfile g h df) = RelativeWorkdirRule.check df := by
  unfold RelativeWorkdirRule.check scrubDockerfile
  exact filterMap_scrub g h _ (fun i => by cases i <;> rfl) _

theorem multipleCMD_stage_scrub (g h : String → String) (s : Stage) :
    MultipleCMDRule.stageFindings (scrubStage g h s) = MultipleCMDRule.stageFindings s := by
  unfold MultipleCMDRule.stageFindings scrubStage
  dsimp only
  rw [List.filter_map]
  have hp : (Instruction.isCmd ∘ scrubInstr g h) = Instruction.isCmd := by
    funext i; cases i <;> rfl
  rw [hp, List.length_map]
  by_cases hlen : 1 < (s.instructions.filter Instruction.isCmd).length
  · rw [if_pos hlen, if_pos hlen, ← List.map_dropLast, List.map_map]
    congr 1
    funext c
    cases c <;> rfl
  · rw [if_neg hlen, if_neg hlen]

theorem multipleCMD_scrub (g h : String → String) (df : Dockerfile) :
    MultipleCMDRule.check (scrubDockerfile g h df) = MultipleCMDRule.check df := by
  unfold MultipleCMDRule.check scrubDockerfile
  dsimp only
  rw [List.map_map]
  congr 1
  exact map_congr_fun (fun s => multipleCMD_stage_scrub g h s) df.stages

theorem multipleEntrypoint_stage_scrub (g h : String → String) (s : Stage) :
    MultipleEntrypointRule.stageFindings (scrubStage g h s)
      = MultipleEntrypointRule.stageFindings s := by
  unfold MultipleEntrypointRule.stageFindings scrubStage
  dsimp only
  rw [List.filter_map]
  have hp : (Instruction.isEntrypoint ∘ scrubInstr g h) = Instruction.isEntrypoint := by
    funext i; cases i <;> rfl
  rw [hp, List.length_map]
  by_cases hlen : 1 < (s.instructions.filter Instruction.isEntrypoint).length
  · rw [if_pos hlen, if_pos hlen, ← List.map_dropLast, List.map_map]
    congr 1
    funext c
    cases c <;> rfl
  · rw [if_neg hlen, if_neg hlen]

theorem multipleEntrypoint_scrub (g h : String → String) (df : Dockerfile) :
    MultipleEntrypointRule.check (scrubDockerfile g h df)
      = MultipleEntrypointRule.check df := by
  unfold MultipleEntrypointRule.check scrubDockerfile
  dsimp only
  rw [List.map_map]
  congr 1
  exact map_congr_fun (fun s => multipleEntrypoint_stage_scrub g h s) df.stages

theorem consecFlush_scrub (g h : String → String) (acc : List Instruction) :
    ConsecutiveRunRule.flush (acc.map (scrubInstr g h)) = ConsecutiveRunRule.flush acc := by
  unfold ConsecutiveRunRule.flush
  rw [List.length_map]
  by_cases hlen : 2 ≤ acc.length
  · rw [if_pos hlen, if_pos hlen]
    cases acc with
    | nil => rfl
    | cons i rest =>
      simp [scrubInstr_lineOf]
  · rw [if_neg hlen, if_neg hlen]

theorem consecGo_scrub (g h : String → String) :
    ∀ (l acc : List Instruction),
      ConsecutiveRunRule.go (acc.map (scrubInstr g h)) (l.map (scrubInstr g h))
        = ConsecutiveRunRule.go acc l
  | [], acc => by
    rw [List.map_nil, ConsecutiveRunRule.go, ConsecutiveRunRule.go,
      consecFlush_scrub]
  | i :: rest, acc => by
    rw [List.map_cons, ConsecutiveRunRule.go, ConsecutiveRunRule.go, scrubInstr_isRun]
    by_cases hr : i.isRun
    · have hmap : List.map (scrubInstr g h) acc ++ [scrubInstr g h i]
          = List.map (scrubInstr g h) (acc ++ [i]) := by
        rw [List.map_append, List.map_cons, List.map_nil]
      rw [if_pos hr, if_pos hr, hmap]
      exact consecGo_scrub g h rest (acc ++ [i])
    · rw [if_neg hr, if_neg hr, consecFlush_scrub]
      have := consecGo_scrub g h rest []
      rw [List.map_nil] at this
      rw [this]

theorem consecutiveRun_scrub (g h : String → String) (df : Dockerfile) :
    ConsecutiveRunRule.check (scrubDockerfile g h df) = ConsecutiveRunRule.check df := by
  unfold ConsecutiveRunRule.check scrubDockerfile
  dsimp only
  have := consecGo_scrub g h df.instructions []
  rw [List.map_nil] at this
  exact this

/-- How the scrub acts on a tracked `copyInfo`. -/
def scrubCopyInfo (g h : String → String) (cp : CopyInfo) : CopyInfo :=
  ⟨scrubInstr g h cp.instr, cp.dest⟩

theorem subOptGoStage_scrub (g h : String → String) :
    ∀ (l : List Instruction) (copies : List CopyInfo),
      SuboptimalOrderingRule.goStage (copies.map (scrubCopyInfo g h))
          (l.map (scrubInstr g h))
        = SuboptimalOrderingRule.goStage copies l
  | [], copies => by
    rw [List.map_nil, SuboptimalOrderingRule.goStage, SuboptimalOrderingRule.goStage]
  | i :: rest, copies => by
    rw [List.map_cons]
    cases i with
    | copyI ln raw sources dest fromFlag chown =>
      rw [show scrubInstr g h (.copyI ln raw sources dest fromFlag chown)
          = .copyI ln raw sources dest fromFlag chown from rfl]
      rw [SuboptimalOrderingRule.goStage, SuboptimalOrderingRule.goStage]
      by_cases hf : fromFlag != ""
      · rw [if_pos hf, if_pos hf]
        exact subOptGoStage_scrub g h rest copies
      · rw [if_neg hf, if_neg hf]
        have := subOptGoStage_scrub g h rest
          (copies ++ [⟨.copyI ln raw sources dest fromFlag chown, dest⟩])
        rw [List.map_append] at this
        exact this
    | addI ln raw sources dest chown =>
      rw [show scrubInstr g h (.addI ln raw sources dest chown)
          = .addI ln raw sources dest chown from rfl]
      rw [SuboptimalOrderingRule.goStage, SuboptimalOrderingRule.goStage]
      have := subOptGoStage_scrub g h rest
        (copies ++ [⟨.addI ln raw sources dest chown, dest⟩])
      rw [List.map_append] at this
      exact this
    | runI ln raw cmd shell =>
      rw [show scrubInstr g h (.runI ln raw cmd shell) = .runI ln raw cmd shell from rfl]
      rw [SuboptimalOrderingRule.goStage, SuboptimalOrderingRule.goStage,
        List.length_map, List.any_map]
      have hca : (Instruction.isCopyOrAdd ∘ scrubInstr g h) = Instruction.isCopyOrAdd := by
        funext j; cases j <;> rfl
      rw [hca]
      by_cases h1 : isPackageInstallCommand cmd && 0 < copies.length
      · rw [if_pos h1, if_pos h1]
        by_cases h2 : rest.any Instruction.isCopyOrAdd
        · rw [if_pos h2, if_pos h2, List.filterMap_map,
            subOptGoStage_scrub g h rest copies]
          congr 1
          refine filterMap_congr_fun (fun cp => ?_) copies
          cases cp with
          | mk instr dest =>
            show (if isPackageFile dest then none else some _)
              = (if isPackageFile dest then none else some _)
            by_cases hp : isPackageFile dest
            · rw [if_pos hp, if_pos hp]
            · rw [if_neg hp, if_neg hp]
              simp [scrubCopyInfo, scrubInstr_lineOf]
        · rw [if_neg h2, if_neg h2]
          exact subOptGoStage_scrub g h rest copies
      · rw [if_neg h1, if_neg h1]
        exact subOptGoStage_scrub g h rest copies
    | fromI fd =>
      rw [show scrubInstr g h (.fromI fd) = .fromI fd from rfl]
      simp only [SuboptimalOrderingRule.goStage]
      exact subOptGoStage_scrub g h rest copies
    | envI ln raw key value =>
      rw [show scrubInstr g h (.envI ln raw key value) = .envI ln raw key (g value) from rfl]
      simp only [SuboptimalOrderingRule.goStage]
      exact subOptGoStage_scrub g h rest copies
    | argI ln raw name dflt =>
      rw [show scrubInstr g h (.argI ln raw name dflt) = .argI ln raw name (h dflt) from rfl]
      simp only [SuboptimalOrderingRule.goStage]
      exact subOptGoStage_scrub g h rest copies
    | exposeI ln raw ports =>
      rw [show scrubInstr g h (.exposeI ln raw ports) = .exposeI ln raw ports from rfl]
      simp only [SuboptimalOrderingRule.goStage]
      exact subOptGoStage_scrub g h rest copies
    | workdirI ln raw path =>
      rw [show scrubInstr g h (.workdirI ln raw path) = .workdirI ln raw path from rfl]
      simp only [SuboptimalOrderingRule.goStage]
      exact subOptGoStage_scrub g h rest copies
    | userI ln raw user grp =>
      rw [show scrubInstr g h (.userI ln raw user grp) = .userI ln raw user grp from rfl]
      simp only [SuboptimalOrderingRule.goStage]
      exact subOptGoStage_scrub g h rest copies
    | labelI ln raw labels =>
      rw [show scrubInstr g h (.labelI ln raw labels) = .labelI ln raw labels from rfl]
      simp only [SuboptimalOrderingRule.goStage]
      exact subOptGoStage_scrub g h rest copies
    | volumeI ln raw paths =>
      rw [show scrubInstr g h (.volumeI ln raw paths) = .volumeI ln raw paths from rfl]
      simp only [SuboptimalOrderingRule.goStage]
      exact subOptGoStage_scrub g h rest copies
    | cmdI ln raw command shell =>
      rw [show scrubInstr g h (.cmdI ln raw command shell) = .cmdI ln raw command shell from rfl]
      simp only [SuboptimalOrderingRule.goStage]
      exact subOptGoStage_scrub g h rest copies
    | entrypointI ln raw command shell =>
      rw [show scrubInstr g h (.entrypointI ln raw command shell)
          = .entrypointI ln raw command shell from rfl]
      simp only [SuboptimalOrderingRule.goStage]
      exact subOptGoStage_scrub g h rest copies
    | healthcheckI ln raw isNone interval timeout retries start command =>
      rw [show scrubInstr g h (.healthcheckI ln raw isNone interval timeout retries start command)
          = .healthcheckI ln raw isNone interval timeout retries start command from rfl]
      simp only [SuboptimalOrderingRule.goStage]
      exact subOptGoStage_scrub g h rest copies
    | shellI ln raw shell =>
      rw [show scrubInstr g h (.shellI ln raw shell) = .shellI ln raw shell from rfl]
      simp only [SuboptimalOrderingRule.goStage]
      exact subOptGoStage_scrub g h rest copies
    | stopsignalI ln raw signal =>
      rw [show scrubInstr g h (.stopsignalI ln raw signal) = .stopsignalI ln raw signal from rfl]
      simp only [SuboptimalOrderingRule.goStage]
      exact subOptGoStage_scrub g h rest copies
    | onbuildI ln raw inner =>
      rw [show scrubInstr g h (.onbuildI ln raw inner)
          = .onbuildI ln raw (scrubInstr g h inner) from rfl]
      simp only [SuboptimalOrderingRule.goStage]
      exact subOptGoStage_scrub g h rest copies

theorem suboptimalOrdering_scrub (g h : String → String) (df : Dockerfile) :
    SuboptimalOrderingRule.check (scrubDockerfile g h df)
      = SuboptimalOrderingRule.check df := by
  unfold SuboptimalOrderingRule.check scrubDockerfile
  dsimp only
  rw [List.map_map]
  congr 1
  refine map_congr_fun (fun s => ?_) df.stages
  show SuboptimalOrderingRule.goStage [] ((scrubStage g h s).instructions) = _
  have := subOptGoStage_scrub g h s.instructions []
  rw [List.map_nil] at this
  exact this

theorem noUserStage_scrub (g h : String → String) (s : Stage) :
    NoUserRule.stageFinding (scrubStage g h s) = NoUserRule.stageFinding s := by
  unfold NoUserRule.stageFinding NoUserRule.stageScan scrubStage
  dsimp only
  rw [List.foldl_map]
  have hfun : (fun (p : Bool × Int) i =>
        (p.1 || (scrubInstr g h i).isUser, (scrubInstr g h i).lineOf))
      = (fun (p : Bool × Int) i => (p.1 || i.isUser, i.lineOf)) := by
    funext p i; cases i <;> rfl
  rw [hfun]

theorem noUser_scrub (g h : String → String) (df : Dockerfile) :
    NoUserRule.check (scrubDockerfile g h df) = NoUserRule.check df := by
  unfold NoUserRule.check scrubDockerfile
  dsimp only
  rw [List.filterMap_map]
  exact filterMap_congr_fun (fun s => noUserStage_scrub g h s) df.stages

theorem missingHealthcheck_scrub (g h : String → String) (df : Dockerfile) :
    MissingHealthcheckRule.check (scrubDockerfile g h df)
      = MissingHealthcheckRule.check df := by
  unfold MissingHealthcheckRule.check scrubDockerfile
  dsimp only
  rw [List.any_map]
  have hhc : (Instruction.isHealthcheck ∘ scrubInstr g h) = Instruction.isHealthcheck := by
    funext i; cases i <;> rfl
  rw [hhc]
  by_cases hany : df.instructions.any Instruction.isHealthcheck
  · rw [if_pos hany, if_pos hany]
  · rw [if_neg hany, if_neg hany, List.getLast?_map]
    cases hst : df.stages.getLast? with
    | none => rfl
    | some s =>
      dsimp only [Option.map_some', scrubStage]
      rw [List.getLast?_map]
      cases hlast : s.instructions.getLast? with
      | none => rfl
      | some i =>
        dsimp only [Option.map_some']
        rw [scrubInstr_lineOf]

theorem isIgnored_scrub (g h : String → String) (df : Dockerfile) (f : Finding) :
    Analyzer.isIgnoredByInlineComment (scrubDockerfile g h df) f
      = Analyzer.isIgnoredByInlineComment df f := rfl

/-- C1, amended. For every Dockerfile tree and configuration, the
analyzer's findings are **independent of ENV values and ARG defaults**:
replacing every ENV instruction's value and every ARG's default by
arbitrary strings leaves `Analyze`'s output unchanged.  No rule reads
these fields, so no finding can incorporate a secret value; a value can
occur in a message only by coinciding with text that does not depend on
it (as in the counterexample, where the value is the literal `ENV`). -/
theorem C1_value_independence (cfg : Config) (df : Dockerfile) (g h : String → String) :
    Analyzer.analyze cfg (some (scrubDockerfile g h df)) = Analyzer.analyze cfg (some df) := by
  rw [analyze_eq_raw, analyze_eq_raw]
  unfold rawFindings
  simp only [registryAll, List.map_cons, List.map_nil, isIgnored_scrub,
    multipleCMD_scrub, multipleEntrypoint_scrub,
    relativeWorkdir_scrub, missingTag_scrub, latestTag_scrub,
    largeBaseImage_scrub, cacheNotCleaned_scrub,
    consecutiveRun_scrub, suboptimalOrdering_scrub,
    updateWithoutInstall_scrub, secretInEnv_scrub,
    secretInArg_scrub, noUser_scrub, addWithURL_scrub,
    addOverCopy_scrub, missingHealthcheck_scrub,
    wildcardCopy_scrub]

/-- The concrete input of the C1 counterexample: `ENV PASSWORD=ENV` —
the key matches the DL4000 pattern and the value is the string `ENV`,
which occurs in DL4000's fixed message text. -/
def c1df : Dockerfile :=
  { stages := [], comments := [], inlineIgnores := [],
    instructions := [Instruction.envI 1 "ENV PASSWORD=ENV" "PASSWORD" "ENV"] }

/-- C1, counterexample. The tree `ENV PASSWORD=ENV` has an ENV whose
key matches the DL4000 secret pattern and whose value is `ENV`; the
DL4000 finding's message (`ENV instruction contains key 'PASSWORD' …`)
contains that value as a substring, so the claim as stated is false. -/
theorem C1_counterexample :
    c1df.instructions = [Instruction.envI 1 "ENV PASSWORD=ENV" "PASSWORD" "ENV"]
    ∧ isSecretKey "PASSWORD" = true
    ∧ (Analyzer.analyze ⟨[]⟩ (some c1df)).any
        (fun f => strContains f.message "ENV") = true :=
  ⟨rfl, rfl, rfl⟩

end DockerLint
